import Mathlib

/-!
Verification development for the swimmy_python_manager repository.

The repository contains two upload managers:
* src/utils/upload_manager.py (used by src/main.py via utils.file_upload_selector):
  tracks per-file completion through the Explorer shell-overlay icon index and
  aggregates progress weighted by byte size;
* src/upload_manager.py (top-level legacy variant): tracks completion through
  the last-access time and a mutex-guarded status dictionary.

Paths are modelled as lists of components (the pathlib view used by the code).
Machine arithmetic: Python ints are unbounded, so Nat/Int are exact models.
The Python expression int((completed / total) * 100) mixes exact ints with
IEEE binary64 floats; it is modelled bit-faithfully: CPython true-divides two
ints to the correctly rounded double (round half to even at 53 significant
bits), multiplies by the exactly representable 100.0 with one more such
rounding, and int() truncates toward zero. The model keeps the exponent
unbounded (binary64 overflow and subnormal thresholds are unreachable for
byte totals), so e.g. int((29/100)*100) evaluates to 28 here as in Python.
File-system and shell effects (shutil.copy2, os.remove, SHGetFileInfoW,
os.path.getsize, os.path.isfile, the Tk dialog) are modelled as an explicit
environment record plus an effect trace returned by each operation.
-/

/-- A file-system path, as its list of components (pathlib.Path view). -/
abbrev FilePath' := List String

/-- Per-file status record stored in UploadManager._file_statuses of
src/utils/upload_manager.py: the overlay index captured right after the copy,
the completion flag, and the recorded byte size. -/
structure FileStatus where
  initialOverlay : Int
  changed : Bool
  size : Nat
deriving DecidableEq, Repr

/-- State of the overlay-icon UploadManager (src/utils/upload_manager.py):
the status dictionary (insertion-ordered, as a Python dict), the stored
progress value, the list of source files of the current batch, and the
running byte totals. -/
structure OverlayState where
  fileStatuses : List (FilePath' × FileStatus)
  progress : Int
  srcFiles : List FilePath'
  totalSize : Nat
  completedSize : Nat
deriving DecidableEq

/-- Initial state built by UploadManager.__init__. -/
def OverlayState.init : OverlayState :=
  { fileStatuses := [], progress := 0, srcFiles := [], totalSize := 0, completedSize := 0 }

/-- Environment of one call into the overlay manager: the answers the OS and
the user give to each query the code makes. -/
structure OverlayEnv where
  isFile : FilePath' → Bool
  confirm : Bool
  getSize : FilePath' → Nat
  getOverlay : FilePath' → Option Int

/-- File-system effects performed by the manager. -/
inductive FSEffect
  | removeDst (p : FilePath')
  | copy (src dst : FilePath')
deriving DecidableEq, Repr

/-- Python dict insertion on an association list: overwrite in place if the
key is present, append otherwise. -/
def dictInsert (k : FilePath') (v : FileStatus) :
    List (FilePath' × FileStatus) → List (FilePath' × FileStatus)
  | [] => [(k, v)]
  | (k', v') :: rest => if k' = k then (k, v) :: rest else (k', v') :: dictInsert k v rest

/-- Python dict lookup on an association list. -/
def dictLookup (k : FilePath') : List (FilePath' × FileStatus) → Option FileStatus
  | [] => none
  | (k', v') :: rest => if k' = k then some v' else dictLookup k rest

/-- Python dict deletion on an association list. -/
def dictErase (k : FilePath') : List (FilePath' × FileStatus) → List (FilePath' × FileStatus)
  | [] => []
  | (k', v') :: rest => if k' = k then rest else (k', v') :: dictErase k rest

/-- UploadManager._get_new_path: dst_folder / path.relative_to(src_dir),
modelled for the subpath case (the dialog flow only passes files below
src_dir): drop the src_dir components and append to dst_folder. -/
def get_new_path (srcDir dstFolder : FilePath') (p : FilePath') : FilePath' :=
  dstFolder ++ p.drop srcDir.length

/-- One iteration of the copy loop of UploadManager.upload_files
(src/utils/upload_manager.py lines 207-226): copy the file, add
max(1, size) to the total, and record the initial overlay index when the
fetch succeeds. -/
def uploadStep (env : OverlayEnv) (srcDir dstFolder : FilePath')
    (acc : OverlayState × List FSEffect) (f : FilePath') : OverlayState × List FSEffect :=
  let np := get_new_path srcDir dstFolder f
  let fileSize := max 1 (env.getSize f)
  let st := { acc.1 with totalSize := acc.1.totalSize + fileSize }
  match env.getOverlay np with
  | some idx =>
      ({ st with fileStatuses := dictInsert np ⟨idx, false, fileSize⟩ st.fileStatuses },
       acc.2 ++ [FSEffect.copy f np])
  | none => (st, acc.2 ++ [FSEffect.copy f np])

/-- UploadManager.upload_files (src/utils/upload_manager.py lines 179-226):
reset progress and statuses, compute the destination files that already
exist, ask for overwrite confirmation when some do (cancelling with
progress -1 on decline, deleting them on accept), then run the copy loop. -/
def upload_files (env : OverlayEnv) (srcDir dstFolder : FilePath')
    (s : OverlayState) (fileList : List FilePath') : OverlayState × List FSEffect :=
  let s0 : OverlayState :=
    { s with progress := 0, fileStatuses := [], srcFiles := fileList,
             totalSize := 0, completedSize := 0 }
  let existing := fileList.filter (fun f => env.isFile (get_new_path srcDir dstFolder f))
  if existing.isEmpty then
    fileList.foldl (uploadStep env srcDir dstFolder) (s0, [])
  else if env.confirm then
    fileList.foldl (uploadStep env srcDir dstFolder)
      (s0, existing.map (fun f => FSEffect.removeDst (get_new_path srcDir dstFolder f)))
  else
    ({ s0 with progress := -1 }, [])

/-- Round half to even of the exact quotient a/b (the IEEE default rounding
applied to a nonnegative rational): round up when the remainder exceeds half
the divisor, down when below, and to the even neighbour on a tie. -/
def rheDiv (a b : Nat) : Nat :=
  if 2 * (a % b) < b then a / b
  else if b < 2 * (a % b) then a / b + 1
  else if (a / b) % 2 = 0 then a / b else a / b + 1

/-- Fuel-bounded binary length: number of binary digits of n (0 for 0). -/
def natBitsAux : Nat → Nat → Nat
  | 0, _ => 0
  | fuel + 1, n => if n = 0 then 0 else natBitsAux fuel (n / 2) + 1

/-- Number of binary digits of n (0 for 0). -/
def natBits (n : Nat) : Nat := natBitsAux n n

/-- Floor of the base-2 logarithm of the positive rational c/t: the unique
e with 2^e <= c/t < 2^(e+1). -/
def floorLog2Frac (c t : Nat) : Int :=
  let d : Int := (natBits c : Int) - (natBits t : Int)
  if t * 2 ^ d.toNat ≤ c * 2 ^ (-d).toNat then d else d - 1

/-- The correctly rounded binary64 value of the quotient c/t as a dyadic
pair (mantissa, exponent) — the value is mantissa * 2^exponent. CPython
int/int true division produces exactly this rounding. -/
def roundQuotient (c t : Nat) : Nat × Int :=
  if c = 0 ∨ t = 0 then (0, 0)
  else
    let e := floorLog2Frac c t
    (rheDiv (c * 2 ^ (52 - e).toNat) (t * 2 ^ (e - 52).toNat), e - 52)

/-- Round a nonnegative dyadic value to 53 significant bits, half to even:
the binary64 result of an exact product of doubles. -/
def roundDyadic (m : Nat) (e : Int) : Nat × Int :=
  if m = 0 then (0, 0)
  else
    let k := natBits m
    if k ≤ 53 then (m, e)
    else (rheDiv m (2 ^ (k - 53)), e + (k - 53))

/-- Truncation toward zero of a nonnegative dyadic value: Python int(). -/
def truncDyadic (m : Nat) (e : Int) : Nat :=
  if 0 ≤ e then m * 2 ^ e.toNat else m / 2 ^ (-e).toNat

/-- Python int((c / t) * 100) on nonnegative ints under IEEE binary64
arithmetic: correctly rounded division, exact conversion of 100, correctly
rounded multiplication, truncation toward zero. -/
def pyTruncPct (c t : Nat) : Nat :=
  let q := roundQuotient c t
  let p := roundDyadic (q.1 * 100) q.2
  truncDyadic p.1 p.2

/-- Scaled-integer statement of the rational inequality t * 2^e <= c for an
integer exponent e (exactly one of the two powers is nontrivial). -/
def scaledLe (t : Nat) (e : Int) (c : Nat) : Prop :=
  t * 2 ^ e.toNat ≤ c * 2 ^ (-e).toNat

/-- Scaled-integer comparison of two nonnegative dyadic values:
m * 2^e <= n * 2^f. -/
def dyLe (m : Nat) (e : Int) (n : Nat) (f : Int) : Prop :=
  m * 2 ^ (e - f).toNat ≤ n * 2 ^ (f - e).toNat

/-- The per-entry update of UploadManager.get_upload_progress
(src/utils/upload_manager.py lines 240-244): fetch the current overlay index
and set the changed flag when the fetch succeeds and the index differs from
the recorded initial one. -/
def pollEntry (g : FilePath' → Option Int) (e : FilePath' × FileStatus) :
    FilePath' × FileStatus :=
  match g e.1 with
  | some cur => if cur ≠ e.2.initialOverlay then (e.1, { e.2 with changed := true }) else e
  | none => e

/-- Sum of the recorded sizes of the tracked files whose status is marked
changed. -/
def changedSize (l : List (FilePath' × FileStatus)) : Nat :=
  l.foldr (fun e a => if e.2.changed then e.2.size + a else a) 0

/-- Sum of the recorded sizes of all tracked files. -/
def trackedSize (l : List (FilePath' × FileStatus)) : Nat :=
  l.foldr (fun e a => e.2.size + a) 0

/-- UploadManager.get_upload_progress (src/utils/upload_manager.py lines
228-252): update every status from the current overlay index, recompute the
completed byte total, and update the stored progress to
int((completed / total) * 100) — computed in IEEE binary64 arithmetic, see
pyTruncPct — when the total is positive; returns the new state together
with the returned value. -/
def get_upload_progress (env : OverlayEnv) (s : OverlayState) : OverlayState × Int :=
  let statuses := s.fileStatuses.map (pollEntry env.getOverlay)
  let completed := changedSize statuses
  let progress : Int :=
    if 0 < s.totalSize then (pyTruncPct completed s.totalSize : Nat) else s.progress
  ({ s with fileStatuses := statuses, completedSize := completed, progress := progress },
   progress)

/-- UploadManager.delete_file (src/utils/upload_manager.py lines 254-273):
join dst_folder with the path relative to src_dir; when that path is tracked
with changed = True, try to remove it and drop its status entry, ignoring a
FileNotFoundError (which leaves the dictionary untouched because the del
statement is not reached). -/
def delete_file (fileExists : FilePath' → Bool) (srcDir dstFolder : FilePath')
    (s : OverlayState) (p : FilePath') : OverlayState × List FSEffect :=
  let full := dstFolder ++ p.drop srcDir.length
  match dictLookup full s.fileStatuses with
  | some st =>
      if st.changed then
        if fileExists full then
          ({ s with fileStatuses := dictErase full s.fileStatuses },
           [FSEffect.removeDst full])
        else (s, [])
      else (s, [])
  | none => (s, [])

/-- The state after n successive get_upload_progress calls, the n-th call
seeing environment envs n. -/
def pollN (envs : Nat → OverlayEnv) (s : OverlayState) : Nat → OverlayState
  | 0 => s
  | Nat.succ n => (get_upload_progress (envs n) (pollN envs s n)).1

/-- Per-file status record of the legacy last-access-time UploadManager
(src/upload_manager.py): the last-access time captured right after the copy
and the completion flag. Times are modelled in integer seconds. -/
structure AccessStatus where
  initial : Int
  changed : Bool
deriving DecidableEq, Repr

/-- UploadManager._check_last_accessed (src/upload_manager.py lines 90-106):
fetch the current last-access time and, when it is at least
ACCESS_CHANGE_THRESHOLD seconds past the recorded initial time, set the
changed flag (under the lock). -/
def check_last_accessed (threshold : Int) (currentAccessed : Int)
    (st : AccessStatus) : AccessStatus :=
  if threshold ≤ currentAccessed - st.initial then { st with changed := true } else st

/-- The code locations of src/upload_manager.py that touch the shared
dictionary self._file_statuses from some thread:
* copyInsertStatus: the copy thread stores the initial record,
  line 185, inside the with self._lock block of line 184;
* checkSetChanged: a polling thread sets the changed flag,
  line 106, inside the with self._lock block of line 105;
* monitorCountChanged: the monitor thread counts the changed entries,
  lines 197-198, inside the with self._lock block of line 196;
* monitorSpawnIteration: the monitor thread iterates the entries to spawn
  polling threads, lines 203-206, outside any with self._lock block;
* deleteRemoveEntry: delete_file removes an entry, line 239, inside the
  with self._lock block of line 236;
* uploadFilesClear: upload_files empties the dictionary for a new batch,
  line 156, outside any with self._lock block — it can race with a monitor
  thread of a previous batch that never reached 100 and is still polling. -/
inductive StatusDictAccess
  | copyInsertStatus
  | checkSetChanged
  | monitorCountChanged
  | monitorSpawnIteration
  | deleteRemoveEntry
  | uploadFilesClear
deriving DecidableEq, Repr

/-- Whether the access site writes to the dictionary or to a record held in
it (as opposed to only reading). -/
def StatusDictAccess.isMutation : StatusDictAccess → Bool
  | copyInsertStatus => true
  | checkSetChanged => true
  | monitorCountChanged => false
  | monitorSpawnIteration => false
  | deleteRemoveEntry => true
  | uploadFilesClear => true

/-- Whether the access site sits inside a with self._lock block. -/
def StatusDictAccess.holdsLock : StatusDictAccess → Bool
  | copyInsertStatus => true
  | checkSetChanged => true
  | monitorCountChanged => true
  | monitorSpawnIteration => false
  | deleteRemoveEntry => true
  | uploadFilesClear => false

/-- A Python string of the file-selector module, as its list of characters,
so that every operation is structurally recursive and evaluates. -/
abbrev Str := List Char

/-- Python str.split with a single-character separator: n separators yield
n+1 pieces, empty pieces included. -/
def splitOnSep (sep : Char) : Str → List Str
  | [] => [[]]
  | c :: rest =>
    match splitOnSep sep rest with
    | [] => [[]]
    | p :: ps => if c = sep then [] :: p :: ps else (c :: p) :: ps

/-- Python str.strip: drop whitespace from both ends. -/
def stripStr (s : Str) : Str :=
  ((s.dropWhile Char.isWhitespace).reverse.dropWhile Char.isWhitespace).reverse

/-- Python str.removeprefix: drop the given leading string when present. -/
def removeLeading (pre s : Str) : Str :=
  if pre.isPrefixOf s then s.drop pre.length else s

/-- Boolean lexicographic order on character lists (Python string order). -/
def lexLe : Str → Str → Bool
  | [], _ => true
  | _ :: _, [] => false
  | a :: as, b :: bs => if a = b then lexLe as bs else decide (a < b)

/-- Stable insertion of a string into a sorted list of strings. -/
def insertSorted (a : Str) : List Str → List Str
  | [] => [a]
  | b :: bs => if lexLe a b then a :: b :: bs else b :: insertSorted a bs

/-- Python sorted on lists of strings: a stable sort by lexicographic order
(insertion sort; the claims depend only on the output being a permutation). -/
def sortedStr (l : List Str) : List Str := l.foldr insertSorted []

/-- ExcludePattern._load_exclude_patterns (src/utils/file_upload_selector.py
lines 45-57): one stripped entry per line of the exclusion-list file. -/
def load_exclude_patterns (lines : List Str) : List Str :=
  lines.map (fun line => stripStr line)

/-- ExcludePattern.is_excluded (src/utils/file_upload_selector.py lines
59-74): split the path on backslashes and test whether any exclusion entry
occurs among the components. -/
def is_excluded (patterns : List Str) (path : Str) : Bool :=
  let folder_and_files := splitOnSep (Char.ofNat 92) path
  patterns.any (fun exclude => folder_and_files.contains exclude)

/-- The is_subfile helper of FileManager.list_directory_contents
(src/utils/file_upload_selector.py lines 114-116). -/
def is_subfile (directoryPath : Str) (isDir : Str → Bool) (item : Str) : Bool :=
  item.contains (Char.ofNat 92) || isDir (directoryPath ++ Char.ofNat 92 :: item)

/-- FileManager.list_directory_contents (src/utils/file_upload_selector.py
lines 104-126): strip the directory from the recursive glob results, drop
the excluded items, and return the sorted folder-like items followed by the
sorted remaining items. -/
def list_directory_contents (patterns : List Str) (directoryPath : Str)
    (globResults : List Str) (isDir : Str → Bool) : List Str :=
  let all_items :=
    globResults.map (fun file => removeLeading (directoryPath ++ [Char.ofNat 92]) file)
  let filtered_items := all_items.filter (fun item => !is_excluded patterns item)
  let subfiled_paths := sortedStr (filtered_items.filter (is_subfile directoryPath isDir))
  let non_subfiled_paths :=
    sortedStr (filtered_items.filter (fun item => !subfiled_paths.contains item))
  subfiled_paths ++ non_subfiled_paths

/-- FileUploadBrowserApp._get_selected_files (src/utils/file_upload_selector.py
lines 289-299): join each checked display item with the directory path and
keep the regular files; the checked items all come from the displayed list. -/
def get_selected_files (directoryPath : Str) (items : List Str)
    (checked : Str → Bool) (isFileAt : Str → Bool) : List Str :=
  let select_files_folders :=
    (items.filter checked).map (fun item => directoryPath ++ Char.ofNat 92 :: item)
  select_files_folders.filter isFileAt

/-- Normal form of one copy-loop iteration: the status entry upload_files
records for a source file, when the overlay fetch succeeds. -/
def uploadRecord (env : OverlayEnv) (srcDir dstFolder : FilePath') (f : FilePath') :
    Option (FilePath' × FileStatus) :=
  match env.getOverlay (get_new_path srcDir dstFolder f) with
  | some idx => some (get_new_path srcDir dstFolder f,
      ⟨idx, false, max 1 (env.getSize f)⟩)
  | none => none

/-- Total of max(1, size) over a list of source files. -/
def sumSizes (env : OverlayEnv) (l : List FilePath') : Nat :=
  l.foldr (fun f a => max 1 (env.getSize f) + a) 0

/-- Invariant of the overlay manager between polls of a batch that was not
cancelled: the stored byte total matches the tracked entries and an empty
batch keeps progress 0. -/
def ProgressInv (s : OverlayState) : Prop :=
  s.totalSize = trackedSize s.fileStatuses ∧ (s.totalSize = 0 → s.progress = 0)

/-- State shape left by a declined overwrite confirmation. -/
def CancelledShape (s : OverlayState) : Prop :=
  s.fileStatuses = [] ∧ s.totalSize = 0 ∧ s.progress = -1

/-- External answers consumed by main (src/main.py lines 19-88). -/
structure MainEnv where
  vscodeRunning : Bool
  selectedFolder : Option String
  workspaceDirIsDir : Bool
  restoreAnswer : String
  replacerOk : Bool
  runAndWaitOk : Bool
  selectUploadOk : Bool

/-- The externally visible steps main performs, in program order. -/
inductive MainEvent
  | showErrorVSCode
  | selectFolderCall
  | askRestore
  | trashOldWorkspace
  | makeWorkspaceDir
  | replacerProcess
  | showErrorReplacer
  | deleteLastHistory
  | runAndWait
  | showErrorRun
  | deleteWorkspaceStorage
  | selectUploadCall
  | showErrorUpload
  | trashWorkspace
  | removeWorkspaceFile
deriving DecidableEq, Repr

/-- The main function (src/main.py lines 19-88), as its exit code and the
trace of steps it performs. Failure of the placeholder replacer, of
vs_code_runner.run_and_wait and of select_upload_files is modelled by the
Ok flags of the environment; askquestion returns a string and the
restore branch tests its truthiness (empty string means falsy). -/
def main_workflow (env : MainEnv) : Int × List MainEvent :=
  if env.vscodeRunning then (1, [MainEvent.showErrorVSCode])
  else
    match env.selectedFolder with
    | none => (0, [MainEvent.selectFolderCall])
    | some _ =>
      let t1 : List MainEvent :=
        [MainEvent.selectFolderCall] ++
          (if env.workspaceDirIsDir then
            [MainEvent.askRestore] ++
              (if env.restoreAnswer = "" then [MainEvent.trashOldWorkspace] else [])
          else [])
      let t2 := t1 ++ [MainEvent.makeWorkspaceDir]
      if !env.replacerOk then
        (1, t2 ++ [MainEvent.replacerProcess, MainEvent.showErrorReplacer])
      else
        let t3 := t2 ++ [MainEvent.replacerProcess, MainEvent.deleteLastHistory]
        if !env.runAndWaitOk then
          (1, t3 ++ [MainEvent.runAndWait, MainEvent.showErrorRun])
        else
          let t4 := t3 ++ [MainEvent.runAndWait, MainEvent.deleteWorkspaceStorage,
                           MainEvent.deleteLastHistory]
          if !env.selectUploadOk then
            (1, t4 ++ [MainEvent.selectUploadCall, MainEvent.showErrorUpload])
          else
            (0, t4 ++ [MainEvent.selectUploadCall, MainEvent.trashWorkspace,
                       MainEvent.removeWorkspaceFile])

/-- Range invariant maintained between calls for a batch that was not
cancelled: the tracked weight never exceeds the stored total and the stored
progress is already a percentage. -/
def RangeInv (s : OverlayState) : Prop :=
  trackedSize s.fileStatuses ≤ s.totalSize ∧ 0 ≤ s.progress ∧ s.progress ≤ 100

/-- Operations the dialog can perform on the overlay manager after a batch
has been uploaded: progress polls and file deletions. -/
inductive ManagerOp
  | poll (env : OverlayEnv)
  | del (fileExists : FilePath' → Bool) (p : FilePath')

/-- Run a sequence of polls and deletions against the manager state. -/
def runOps (srcDir dstFolder : FilePath') : List ManagerOp → OverlayState → OverlayState
  | [], s => s
  | ManagerOp.poll env :: ops, s =>
      runOps srcDir dstFolder ops (get_upload_progress env s).1
  | ManagerOp.del fe p :: ops, s =>
      runOps srcDir dstFolder ops (delete_file fe srcDir dstFolder s p).1


theorem trackedSize_nil : trackedSize [] = 0 := rfl

theorem trackedSize_cons (e : FilePath' × FileStatus) (l : List (FilePath' × FileStatus)) :
    trackedSize (e :: l) = e.2.size + trackedSize l := rfl

theorem changedSize_nil : changedSize [] = 0 := rfl

theorem changedSize_cons (e : FilePath' × FileStatus) (l : List (FilePath' × FileStatus)) :
    changedSize (e :: l) = if e.2.changed then e.2.size + changedSize l else changedSize l := rfl

theorem sumSizes_cons (env : OverlayEnv) (f : FilePath') (l : List FilePath') :
    sumSizes env (f :: l) = max 1 (env.getSize f) + sumSizes env l := rfl

theorem changedSize_le_trackedSize (l : List (FilePath' × FileStatus)) :
    changedSize l ≤ trackedSize l := by
  induction l with
  | nil => exact Nat.le_refl 0
  | cons e l ih =>
    rw [trackedSize_cons, changedSize_cons]
    cases e.2.changed <;> simp <;> omega

theorem dictInsert_eq_append (k : FilePath') (v : FileStatus)
    (d : List (FilePath' × FileStatus)) (h : ∀ e ∈ d, e.1 ≠ k) :
    dictInsert k v d = d ++ [(k, v)] := by
  induction d with
  | nil => rfl
  | cons e d ih =>
    obtain ⟨k', v'⟩ := e
    have hne : k' ≠ k := h (k', v') (List.mem_cons_self _ _)
    simp only [dictInsert, if_neg hne, List.cons_append]
    exact congrArg _ (ih (fun e he => h e (List.mem_cons_of_mem _ he)))

theorem pollEntry_fst (g : FilePath' → Option Int) (e : FilePath' × FileStatus) :
    (pollEntry g e).1 = e.1 := by
  unfold pollEntry
  cases g e.1 with
  | none => rfl
  | some cur => by_cases h : cur = e.2.initialOverlay <;> simp [h]

theorem pollEntry_size (g : FilePath' → Option Int) (e : FilePath' × FileStatus) :
    (pollEntry g e).2.size = e.2.size := by
  unfold pollEntry
  cases g e.1 with
  | none => rfl
  | some cur => by_cases h : cur = e.2.initialOverlay <;> simp [h]

theorem pollEntry_changed (g : FilePath' → Option Int) (e : FilePath' × FileStatus) :
    (pollEntry g e).2.changed =
      (e.2.changed ||
        (match g e.1 with
         | some cur => decide (cur ≠ e.2.initialOverlay)
         | none => false)) := by
  unfold pollEntry
  cases g e.1 with
  | none => simp
  | some cur => by_cases h : cur = e.2.initialOverlay <;> simp [h]

theorem trackedSize_map_pollEntry (g : FilePath' → Option Int)
    (l : List (FilePath' × FileStatus)) :
    trackedSize (l.map (pollEntry g)) = trackedSize l := by
  induction l with
  | nil => rfl
  | cons e l ih =>
    rw [List.map_cons, trackedSize_cons, trackedSize_cons, pollEntry_size, ih]

theorem uploadRecord_eq_none (env : OverlayEnv) (srcDir dstFolder f : FilePath')
    (h : env.getOverlay (get_new_path srcDir dstFolder f) = none) :
    uploadRecord env srcDir dstFolder f = none := by
  unfold uploadRecord
  rw [h]

theorem uploadRecord_eq_some (env : OverlayEnv) (srcDir dstFolder f : FilePath') (idx : Int)
    (h : env.getOverlay (get_new_path srcDir dstFolder f) = some idx) :
    uploadRecord env srcDir dstFolder f =
      some (get_new_path srcDir dstFolder f, ⟨idx, false, max 1 (env.getSize f)⟩) := by
  unfold uploadRecord
  rw [h]

theorem uploadFold_spec (env : OverlayEnv) (srcDir dstFolder : FilePath')
    (l : List FilePath') :
    ∀ (acc : OverlayState × List FSEffect),
      (l.map (get_new_path srcDir dstFolder)).Nodup →
      (∀ f ∈ l, ∀ e ∈ acc.1.fileStatuses, e.1 ≠ get_new_path srcDir dstFolder f) →
      (l.foldl (uploadStep env srcDir dstFolder) acc).1.fileStatuses
          = acc.1.fileStatuses ++ l.filterMap (uploadRecord env srcDir dstFolder)
        ∧ (l.foldl (uploadStep env srcDir dstFolder) acc).1.totalSize
          = acc.1.totalSize + sumSizes env l
        ∧ (l.foldl (uploadStep env srcDir dstFolder) acc).1.progress = acc.1.progress
        ∧ (l.foldl (uploadStep env srcDir dstFolder) acc).1.completedSize
          = acc.1.completedSize := by
  induction l with
  | nil =>
    intro acc _ _
    refine ⟨by simp, by simp [sumSizes], rfl, rfl⟩
  | cons f l ih =>
    intro acc hnodup hfresh
    rw [List.map_cons, List.nodup_cons] at hnodup
    obtain ⟨hnotmem, hnodup'⟩ := hnodup
    have hfresh_f : ∀ e ∈ acc.1.fileStatuses, e.1 ≠ get_new_path srcDir dstFolder f :=
      hfresh f (List.mem_cons_self f l)
    rw [List.foldl_cons]
    rcases hov : env.getOverlay (get_new_path srcDir dstFolder f) with _ | idx
    case none =>
      have hstep : uploadStep env srcDir dstFolder acc f =
          ({ acc.1 with totalSize := acc.1.totalSize + max 1 (env.getSize f) },
           acc.2 ++ [FSEffect.copy f (get_new_path srcDir dstFolder f)]) := by
        simp only [uploadStep, hov]
      rw [hstep]
      obtain ⟨h1, h2, h3, h4⟩ :=
        ih ({ acc.1 with totalSize := acc.1.totalSize + max 1 (env.getSize f) },
            acc.2 ++ [FSEffect.copy f (get_new_path srcDir dstFolder f)]) hnodup'
          (fun f' hf' e he => hfresh f' (List.mem_cons_of_mem _ hf') e he)
      refine ⟨?_, ?_, h3, h4⟩
      · rw [h1]
        dsimp only
        rw [List.filterMap_cons, uploadRecord_eq_none env srcDir dstFolder f hov]
      · rw [h2, sumSizes_cons]
        dsimp only
        omega
    case some =>
      have hstep : uploadStep env srcDir dstFolder acc f =
          ({ acc.1 with
              totalSize := acc.1.totalSize + max 1 (env.getSize f),
              fileStatuses := acc.1.fileStatuses ++
                [(get_new_path srcDir dstFolder f,
                  ⟨idx, false, max 1 (env.getSize f)⟩)] },
           acc.2 ++ [FSEffect.copy f (get_new_path srcDir dstFolder f)]) := by
        simp only [uploadStep, hov]
        rw [dictInsert_eq_append _ _ _ hfresh_f]
      rw [hstep]
      have hfresh' : ∀ f' ∈ l, ∀ e ∈ acc.1.fileStatuses ++
          [(get_new_path srcDir dstFolder f, (⟨idx, false, max 1 (env.getSize f)⟩ : FileStatus))],
          e.1 ≠ get_new_path srcDir dstFolder f' := by
        intro f' hf' e he
        rcases List.mem_append.1 he with he | he
        · exact hfresh f' (List.mem_cons_of_mem _ hf') e he
        · rcases List.mem_singleton.1 he with rfl
          intro hEq
          rw [show ((get_new_path srcDir dstFolder f,
              (⟨idx, false, max 1 (env.getSize f)⟩ : FileStatus)).1
              = get_new_path srcDir dstFolder f) from rfl] at hEq
          exact hnotmem (hEq ▸ List.mem_map_of_mem _ hf')
      obtain ⟨h1, h2, h3, h4⟩ :=
        ih ({ acc.1 with
              totalSize := acc.1.totalSize + max 1 (env.getSize f),
              fileStatuses := acc.1.fileStatuses ++
                [(get_new_path srcDir dstFolder f,
                  ⟨idx, false, max 1 (env.getSize f)⟩)] },
            acc.2 ++ [FSEffect.copy f (get_new_path srcDir dstFolder f)]) hnodup' hfresh'
      refine ⟨?_, ?_, h3, h4⟩
      · rw [h1]
        dsimp only
        rw [List.filterMap_cons, uploadRecord_eq_some env srcDir dstFolder f idx hov]
        simp
      · rw [h2, sumSizes_cons]
        dsimp only
        omega

theorem upload_files_spec (env : OverlayEnv) (srcDir dstFolder : FilePath')
    (s : OverlayState) (l : List FilePath')
    (hnodup : (l.map (get_new_path srcDir dstFolder)).Nodup)
    (hnc : (l.filter (fun f => env.isFile (get_new_path srcDir dstFolder f))).isEmpty = true
           ∨ env.confirm = true) :
    (upload_files env srcDir dstFolder s l).1.fileStatuses
        = l.filterMap (uploadRecord env srcDir dstFolder)
      ∧ (upload_files env srcDir dstFolder s l).1.totalSize = sumSizes env l
      ∧ (upload_files env srcDir dstFolder s l).1.progress = 0
      ∧ (upload_files env srcDir dstFolder s l).1.completedSize = 0 := by
  unfold upload_files
  cases hE : (l.filter (fun f => env.isFile (get_new_path srcDir dstFolder f))).isEmpty with
  | true =>
    simp only [hE, if_true]
    obtain ⟨h1, h2, h3, h4⟩ := uploadFold_spec env srcDir dstFolder l
      ({ s with progress := 0, fileStatuses := [], srcFiles := l,
                totalSize := 0, completedSize := 0 }, []) hnodup
      (by intro f _ e he; simp at he)
    exact ⟨by simpa using h1, by simpa using h2, by simpa using h3, by simpa using h4⟩
  | false =>
    have hconf : env.confirm = true := by
      rcases hnc with h | h
      · rw [h] at hE; cases hE
      · exact h
    simp only [hE, hconf, if_false, if_true, Bool.false_eq_true]
    obtain ⟨h1, h2, h3, h4⟩ := uploadFold_spec env srcDir dstFolder l
      ({ s with progress := 0, fileStatuses := [], srcFiles := l,
                totalSize := 0, completedSize := 0 },
       (l.filter (fun f => env.isFile (get_new_path srcDir dstFolder f))).map
         (fun f => FSEffect.removeDst (get_new_path srcDir dstFolder f))) hnodup
      (by intro f _ e he; simp at he)
    exact ⟨by simpa using h1, by simpa using h2, by simpa using h3, by simpa using h4⟩

theorem trackedSize_filterMap_uploadRecord (env : OverlayEnv)
    (srcDir dstFolder : FilePath') (l : List FilePath')
    (hfetch : ∀ f ∈ l, env.getOverlay (get_new_path srcDir dstFolder f) ≠ none) :
    trackedSize (l.filterMap (uploadRecord env srcDir dstFolder)) = sumSizes env l := by
  induction l with
  | nil => rfl
  | cons f l ih =>
    rcases hov : env.getOverlay (get_new_path srcDir dstFolder f) with _ | idx
    · exact absurd hov (hfetch f (List.mem_cons_self f l))
    · rw [List.filterMap_cons, uploadRecord_eq_some env srcDir dstFolder f idx hov,
        trackedSize_cons, sumSizes_cons,
        ih (fun f' hf' => hfetch f' (List.mem_cons_of_mem _ hf'))]

theorem get_preserves_inv (env : OverlayEnv) (s : OverlayState) (h : ProgressInv s) :
    ProgressInv (get_upload_progress env s).1 := by
  obtain ⟨h1, h2⟩ := h
  constructor
  · simpa [get_upload_progress, trackedSize_map_pollEntry] using h1
  · intro h0
    simp only [get_upload_progress] at h0 ⊢
    rw [if_neg (by omega : ¬ 0 < s.totalSize)]
    exact h2 h0

theorem pollN_inv (envs : Nat → OverlayEnv) (s : OverlayState) (h : ProgressInv s) :
    ∀ n, ProgressInv (pollN envs s n)
  | 0 => h
  | Nat.succ n => get_preserves_inv (envs n) _ (pollN_inv envs s h n)

theorem rheDiv_bounds (a b : Nat) : a / b ≤ rheDiv a b ∧ rheDiv a b ≤ a / b + 1 := by
  unfold rheDiv
  split_ifs <;> omega

theorem rheDiv_le (a b k : Nat) (hb : 0 < b) (h : a ≤ b * k) : rheDiv a b ≤ k := by
  have hq : a / b ≤ k := by
    calc a / b ≤ (b * k) / b := Nat.div_le_div_right h
      _ = k := Nat.mul_div_cancel_left k hb
  have hr0 : a / b = k → a % b = 0 := by
    intro heq
    have hdm := Nat.div_add_mod a b
    rw [heq] at hdm
    omega
  unfold rheDiv
  split_ifs <;> omega

theorem le_rheDiv (a b k : Nat) (hb : 0 < b) (h : b * k ≤ a) : k ≤ rheDiv a b := by
  have hq : k ≤ a / b := by
    rw [Nat.le_div_iff_mul_le hb, Nat.mul_comm]
    exact h
  have := rheDiv_bounds a b
  omega

theorem rheDiv_mul_cancel (k b : Nat) (hb : 0 < b) : rheDiv (k * b) b = k := by
  unfold rheDiv
  rw [Nat.mul_div_cancel k hb, Nat.mul_mod_left]
  simp
  omega

theorem rheDiv_cross_mono {a b a' b' : Nat} (hb : 0 < b) (hb' : 0 < b')
    (h : a * b' ≤ a' * b) : rheDiv a b ≤ rheDiv a' b' := by
  have hq : a / b ≤ a' / b' := by
    rw [Nat.le_div_iff_mul_le hb']
    have h1 : a / b * b ≤ a := Nat.div_mul_le_self a b
    have h2 : a / b * b' * b ≤ a' * b := by
      calc a / b * b' * b = (a / b * b) * b' := by ring
        _ ≤ a * b' := Nat.mul_le_mul_right _ h1
        _ ≤ a' * b := h
    exact Nat.le_of_mul_le_mul_right h2 hb
  rcases Nat.lt_or_ge (a / b) (a' / b') with hlt | hge
  · have l1 := rheDiv_bounds a b
    have l2 := rheDiv_bounds a' b'
    omega
  · have heq : a / b = a' / b' := le_antisymm hq hge
    have hd := Nat.div_add_mod a b
    have hd' := Nat.div_add_mod a' b'
    have hr : (a % b) * b' ≤ (a' % b') * b := by
      have e1 : a * b' = b * (a / b) * b' + (a % b) * b' := by
        conv_lhs => rw [← hd]
        ring
      have e2 : a' * b = b * (a / b) * b' + (a' % b') * b := by
        conv_lhs => rw [← hd']
        rw [heq]
        ring
      omega
    have hup : b ≤ 2 * (a % b) → b' ≤ 2 * (a' % b') := by
      intro hbx
      have h1 : b * b' ≤ 2 * (a % b) * b' := Nat.mul_le_mul_right _ hbx
      have h2 : 2 * (a % b) * b' ≤ 2 * (a' % b') * b := by
        calc 2 * (a % b) * b' = 2 * ((a % b) * b') := by ring
          _ ≤ 2 * ((a' % b') * b) := Nat.mul_le_mul_left _ hr
          _ = 2 * (a' % b') * b := by ring
      have h3 : b' * b ≤ 2 * (a' % b') * b := by
        calc b' * b = b * b' := Nat.mul_comm _ _
          _ ≤ 2 * (a' % b') * b := le_trans h1 h2
      exact Nat.le_of_mul_le_mul_right h3 hb
    have hupstrict : b < 2 * (a % b) → b' < 2 * (a' % b') := by
      intro hbx
      have h1 : b * b' < 2 * (a % b) * b' := by
        exact Nat.mul_lt_mul_of_lt_of_le hbx (le_refl b') hb'
      have h2 : 2 * (a % b) * b' ≤ 2 * (a' % b') * b := by
        calc 2 * (a % b) * b' = 2 * ((a % b) * b') := by ring
          _ ≤ 2 * ((a' % b') * b) := Nat.mul_le_mul_left _ hr
          _ = 2 * (a' % b') * b := by ring
      have h3 : b' * b < 2 * (a' % b') * b := by
        calc b' * b = b * b' := Nat.mul_comm _ _
          _ < 2 * (a' % b') * b := lt_of_lt_of_le h1 h2
      exact Nat.lt_of_mul_lt_mul_right h3
    unfold rheDiv
    rw [heq]
    split_ifs with c1 c2 c3 c1' c2' c3' <;> omega

theorem natBitsAux_zero (fuel : Nat) : natBitsAux fuel 0 = 0 := by
  cases fuel <;> rfl

theorem natBitsAux_spec : ∀ (fuel n : Nat), 0 < n → n ≤ fuel →
    2 ^ (natBitsAux fuel n - 1) ≤ n ∧ n < 2 ^ natBitsAux fuel n
  | 0, n, hn, hle => absurd (Nat.lt_of_lt_of_le hn hle) (lt_irrefl 0)
  | fuel + 1, n, hn, hle => by
    unfold natBitsAux
    rw [if_neg (by omega : ¬ n = 0)]
    by_cases h1 : n = 1
    · subst h1
      rw [show (1 / 2 : Nat) = 0 from rfl, natBitsAux_zero]
      exact ⟨by norm_num, by norm_num⟩
    · have hge2 : 2 ≤ n := by omega
      have hdiv2 : n / 2 < n := Nat.div_lt_self (by omega) (by omega)
      have hhalf : 0 < n / 2 := Nat.div_pos (by omega) (by omega)
      have hfle : n / 2 ≤ fuel := by omega
      obtain ⟨ih1, ih2⟩ := natBitsAux_spec fuel (n / 2) hhalf hfle
      have hk1 : 1 ≤ natBitsAux fuel (n / 2) := by
        rcases Nat.eq_zero_or_pos (natBitsAux fuel (n / 2)) with h0 | h
        · rw [h0] at ih2
          omega
        · exact h
      set k := natBitsAux fuel (n / 2) with hk
      have hpow : 2 ^ k = 2 ^ (k - 1) * 2 := by
        rw [← Nat.pow_succ]
        congr 1
        omega
      have hpow2 : 2 ^ (k + 1) = 2 ^ k * 2 := by
        rw [← Nat.pow_succ]
      have hdm := Nat.div_add_mod n 2
      have hmod : n % 2 < 2 := Nat.mod_lt n (by omega)
      constructor
      · rw [show k + 1 - 1 = k from by omega]
        omega
      · omega

theorem natBits_spec (n : Nat) (hn : 0 < n) :
    2 ^ (natBits n - 1) ≤ n ∧ n < 2 ^ natBits n :=
  natBitsAux_spec n n hn (le_refl n)

theorem natBits_pos (n : Nat) (hn : 0 < n) : 1 ≤ natBits n := by
  rcases Nat.eq_zero_or_pos (natBits n) with h0 | h
  · have := (natBits_spec n hn).2
    rw [h0] at this
    omega
  · exact h

theorem scaled_shift {a b : Nat} (x y u v : Nat) (h : x + v = u + y)
    (hxy : a * 2 ^ x ≤ b * 2 ^ y) : a * 2 ^ u ≤ b * 2 ^ v := by
  have h1 : a * 2 ^ u * 2 ^ y ≤ b * 2 ^ v * 2 ^ y := by
    calc a * 2 ^ u * 2 ^ y = a * 2 ^ (u + y) := by rw [Nat.mul_assoc, Nat.pow_add]
      _ = a * 2 ^ (x + v) := by rw [← h]
      _ = a * 2 ^ x * 2 ^ v := by rw [Nat.mul_assoc, Nat.pow_add]
      _ ≤ b * 2 ^ y * 2 ^ v := Nat.mul_le_mul_right _ hxy
      _ = b * 2 ^ v * 2 ^ y := by ring
  exact Nat.le_of_mul_le_mul_right h1 (pow_pos (by omega) y)

theorem mul_pow_lt_mul_pow {a b : Nat} (h : a < b) (p : Nat) : a * 2 ^ p < b * 2 ^ p :=
  Nat.mul_lt_mul_of_lt_of_le h (Nat.le_refl _) (pow_pos (by omega) p)

theorem scaledLe_mono_c {t : Nat} {e : Int} {c c' : Nat} (h : scaledLe t e c)
    (hcc : c ≤ c') : scaledLe t e c' :=
  le_trans h (Nat.mul_le_mul_right _ hcc)

theorem scaledLe_anti_e {t : Nat} {e f : Int} {c : Nat} (h : scaledLe t e c)
    (hfe : f ≤ e) : scaledLe t f c := by
  unfold scaledLe at h ⊢
  have h2 : t * 2 ^ e.toNat ≤ c * 2 ^ ((-e).toNat + (e - f).toNat) := by
    calc t * 2 ^ e.toNat ≤ c * 2 ^ (-e).toNat := h
      _ ≤ c * 2 ^ ((-e).toNat + (e - f).toNat) := by
          exact Nat.mul_le_mul_left _ (Nat.pow_le_pow_right (by omega) (by omega))
  exact scaled_shift e.toNat ((-e).toNat + (e - f).toNat) f.toNat ((-f).toNat)
    (by omega) h2

theorem floorLog2Frac_spec (c t : Nat) (hc : 0 < c) (ht : 0 < t) :
    scaledLe t (floorLog2Frac c t) c ∧ ¬ scaledLe t (floorLog2Frac c t + 1) c := by
  obtain ⟨hc1, hc2⟩ := natBits_spec c hc
  obtain ⟨ht1, ht2⟩ := natBits_spec t ht
  have hcb := natBits_pos c hc
  have htb := natBits_pos t ht
  unfold floorLog2Frac
  set Bc := natBits c with hBc
  set Bt := natBits t with hBt
  set d : Int := (Bc : Int) - (Bt : Int) with hd
  have hub : ¬ scaledLe t (d + 1) c := by
    unfold scaledLe
    rw [Nat.not_le]
    have s1 : c * 2 ^ ((-(d + 1)).toNat) < 2 ^ Bc * 2 ^ ((-(d + 1)).toNat) :=
      mul_pow_lt_mul_pow hc2 _
    have s2 : (2 : Nat) ^ Bc * 2 ^ ((-(d + 1)).toNat)
        ≤ 2 ^ (Bt - 1) * 2 ^ ((d + 1).toNat) := by
      rw [← Nat.pow_add, ← Nat.pow_add]
      exact Nat.pow_le_pow_right (by omega) (by omega)
    have s3 : (2 : Nat) ^ (Bt - 1) * 2 ^ ((d + 1).toNat) ≤ t * 2 ^ ((d + 1).toNat) :=
      Nat.mul_le_mul_right _ ht1
    exact lt_of_lt_of_le s1 (le_trans s2 s3)
  have hlb : scaledLe t (d - 1) c := by
    unfold scaledLe
    have s1 : t * 2 ^ ((d - 1).toNat) < 2 ^ Bt * 2 ^ ((d - 1).toNat) :=
      mul_pow_lt_mul_pow ht2 _
    have s2 : (2 : Nat) ^ Bt * 2 ^ ((d - 1).toNat)
        ≤ 2 ^ (Bc - 1) * 2 ^ ((-(d - 1)).toNat) := by
      rw [← Nat.pow_add, ← Nat.pow_add]
      exact Nat.pow_le_pow_right (by omega) (by omega)
    have s3 : (2 : Nat) ^ (Bc - 1) * 2 ^ ((-(d - 1)).toNat) ≤ c * 2 ^ ((-(d - 1)).toNat) :=
      Nat.mul_le_mul_right _ hc1
    exact le_of_lt (lt_of_lt_of_le s1 (le_trans s2 s3))
  by_cases hcond : t * 2 ^ d.toNat ≤ c * 2 ^ (-d).toNat
  · rw [if_pos hcond]
    exact ⟨hcond, hub⟩
  · rw [if_neg hcond]
    refine ⟨hlb, ?_⟩
    rw [show d - 1 + 1 = d from by ring]
    exact hcond

theorem floorLog2Frac_mono (t : Nat) (ht : 0 < t) {c c' : Nat} (hc : 0 < c) (h : c ≤ c') :
    floorLog2Frac c t ≤ floorLog2Frac c' t := by
  have hc' : 0 < c' := by omega
  obtain ⟨l1, _⟩ := floorLog2Frac_spec c t hc ht
  obtain ⟨_, u2⟩ := floorLog2Frac_spec c' t hc' ht
  by_contra hlt
  push_neg at hlt
  exact u2 (scaledLe_mono_c (scaledLe_anti_e l1 (by omega)) h)

theorem floorLog2Frac_self (t : Nat) : floorLog2Frac t t = 0 := by
  unfold floorLog2Frac
  simp

theorem roundQuotient_snd (c t : Nat) (hc : 0 < c) (ht : 0 < t) :
    (roundQuotient c t).2 = floorLog2Frac c t - 52 := by
  unfold roundQuotient
  rw [if_neg (by omega)]

theorem roundQuotient_m_lower (c t : Nat) (hc : 0 < c) (ht : 0 < t) :
    2 ^ 52 ≤ (roundQuotient c t).1 := by
  unfold roundQuotient
  rw [if_neg (by omega)]
  obtain ⟨l1, _⟩ := floorLog2Frac_spec c t hc ht
  unfold scaledLe at l1
  set e := floorLog2Frac c t with he
  apply le_rheDiv _ _ _ (Nat.mul_pos ht (pow_pos (by omega) _))
  have hsh := scaled_shift e.toNat ((-e).toNat) ((e - 52).toNat + 52) ((52 - e).toNat)
    (by omega) l1
  calc t * 2 ^ ((e - 52).toNat) * 2 ^ 52 = t * 2 ^ ((e - 52).toNat + 52) := by
        rw [Nat.mul_assoc, Nat.pow_add]
    _ ≤ c * 2 ^ ((52 - e).toNat) := hsh

theorem roundQuotient_m_upper (c t : Nat) (hc : 0 < c) (ht : 0 < t) :
    (roundQuotient c t).1 ≤ 2 ^ 53 := by
  unfold roundQuotient
  rw [if_neg (by omega)]
  obtain ⟨_, u1⟩ := floorLog2Frac_spec c t hc ht
  unfold scaledLe at u1
  rw [Nat.not_le] at u1
  set e := floorLog2Frac c t with he
  apply rheDiv_le _ _ _ (Nat.mul_pos ht (pow_pos (by omega) _))
  have hsh := scaled_shift ((-(e + 1)).toNat) ((e + 1).toNat) ((52 - e).toNat)
    ((e - 52).toNat + 53) (by omega) (le_of_lt u1)
  calc c * 2 ^ ((52 - e).toNat) ≤ t * 2 ^ ((e - 52).toNat + 53) := hsh
    _ = t * 2 ^ ((e - 52).toNat) * 2 ^ 53 := by rw [Nat.mul_assoc, Nat.pow_add]

theorem dyLe_same {m m' : Nat} (E : Int) (h : m ≤ m') : dyLe m E m' E := by
  unfold dyLe
  rw [show (E - E).toNat = 0 from by omega, pow_zero, Nat.mul_one, Nat.mul_one]
  exact h

theorem dyLe_of_exp_lt {m m' : Nat} {E F : Int} (hmu : m ≤ 2 ^ 53) (hml : 2 ^ 52 ≤ m')
    (hE : E < F) : dyLe m E m' F := by
  unfold dyLe
  rw [show (E - F).toNat = 0 from by omega, pow_zero, Nat.mul_one]
  calc m ≤ 2 ^ 53 := hmu
    _ = 2 ^ 52 * 2 ^ 1 := by norm_num
    _ ≤ 2 ^ 52 * 2 ^ (F - E).toNat :=
        Nat.mul_le_mul_left _ (Nat.pow_le_pow_right (by omega) (by omega))
    _ ≤ m' * 2 ^ (F - E).toNat := Nat.mul_le_mul_right _ hml

theorem roundQuotient_mono (t : Nat) {c c' : Nat} (h : c ≤ c') (hc : 0 < c) (ht : 0 < t) :
    dyLe (roundQuotient c t).1 (roundQuotient c t).2
         (roundQuotient c' t).1 (roundQuotient c' t).2 := by
  have hc' : 0 < c' := by omega
  have hemono := floorLog2Frac_mono t ht hc h
  rcases eq_or_lt_of_le hemono with heq | hlt
  · have hsnd : (roundQuotient c t).2 = (roundQuotient c' t).2 := by
      rw [roundQuotient_snd c t hc ht, roundQuotient_snd c' t hc' ht, heq]
    rw [hsnd]
    apply dyLe_same
    unfold roundQuotient
    rw [if_neg (by omega), if_neg (by omega), ← heq]
    apply rheDiv_cross_mono (Nat.mul_pos ht (pow_pos (by omega) _))
      (Nat.mul_pos ht (pow_pos (by omega) _))
    exact Nat.mul_le_mul_right _ (Nat.mul_le_mul_right _ h)
  · apply dyLe_of_exp_lt (roundQuotient_m_upper c t hc ht) (roundQuotient_m_lower c' t hc' ht)
    rw [roundQuotient_snd c t hc ht, roundQuotient_snd c' t hc' ht]
    omega

theorem roundDyadic_m_bounds (m : Nat) (E : Int) (hm : 2 ^ 58 ≤ m) :
    2 ^ 52 ≤ (roundDyadic m E).1 ∧ (roundDyadic m E).1 ≤ 2 ^ 53 ∧
    (roundDyadic m E).2 = E + ((natBits m : Int) - 53) ∧ 53 < natBits m ∧
    (roundDyadic m E).1 = rheDiv m (2 ^ (natBits m - 53)) := by
  have hm0 : 0 < m := by omega
  obtain ⟨b1, b2⟩ := natBits_spec m hm0
  have hk : 53 < natBits m := by
    by_contra hkk
    push_neg at hkk
    have : (2 : Nat) ^ natBits m ≤ 2 ^ 58 := Nat.pow_le_pow_right (by omega) (by omega)
    omega
  unfold roundDyadic
  rw [if_neg (by omega), if_neg (by omega)]
  refine ⟨?_, ?_, rfl, hk, rfl⟩
  · apply le_rheDiv _ _ _ (pow_pos (by omega) _)
    rw [← Nat.pow_add]
    calc (2 : Nat) ^ (natBits m - 53 + 52) = 2 ^ (natBits m - 1) := by congr 1; omega
      _ ≤ m := b1
  · apply rheDiv_le _ _ _ (pow_pos (by omega) _)
    rw [← Nat.pow_add]
    calc m ≤ 2 ^ natBits m := le_of_lt b2
      _ ≤ 2 ^ (natBits m - 53 + 53) := Nat.pow_le_pow_right (by omega) (by omega)

theorem roundDyadic_mono {m m' : Nat} {E F : Int}
    (hm : 2 ^ 58 ≤ m) (hm' : 2 ^ 58 ≤ m') (h : dyLe m E m' F) :
    dyLe (roundDyadic m E).1 (roundDyadic m E).2 (roundDyadic m' F).1 (roundDyadic m' F).2 := by
  obtain ⟨l1, u1, hsnd1, hk1, hfst1⟩ := roundDyadic_m_bounds m E hm
  obtain ⟨l2, u2, hsnd2, hk2, hfst2⟩ := roundDyadic_m_bounds m' F hm'
  have hm0 : 0 < m := by omega
  have hm0' : 0 < m' := by omega
  obtain ⟨b1, b2⟩ := natBits_spec m hm0
  obtain ⟨b1', b2'⟩ := natBits_spec m' hm0'
  have hcmp : E + (natBits m : Int) ≤ F + (natBits m' : Int) := by
    by_contra hcc
    push_neg at hcc
    have s1 : m' * 2 ^ ((F - E).toNat) < 2 ^ (natBits m') * 2 ^ ((F - E).toNat) :=
      mul_pow_lt_mul_pow b2' _
    have s2 : (2 : Nat) ^ (natBits m') * 2 ^ ((F - E).toNat)
        ≤ 2 ^ (natBits m - 1) * 2 ^ ((E - F).toNat) := by
      rw [← Nat.pow_add, ← Nat.pow_add]
      exact Nat.pow_le_pow_right (by omega) (by omega)
    have s3 : (2 : Nat) ^ (natBits m - 1) * 2 ^ ((E - F).toNat)
        ≤ m * 2 ^ ((E - F).toNat) := Nat.mul_le_mul_right _ b1
    unfold dyLe at h
    omega
  rcases eq_or_lt_of_le hcmp with heqF | hltF
  · have hEq2 : (roundDyadic m E).2 = (roundDyadic m' F).2 := by
      rw [hsnd1, hsnd2]
      omega
    rw [hEq2]
    apply dyLe_same
    rw [hfst1, hfst2]
    apply rheDiv_cross_mono (pow_pos (by omega) _) (pow_pos (by omega) _)
    unfold dyLe at h
    exact scaled_shift _ _ (natBits m' - 53) (natBits m - 53) (by omega) h
  · rw [hsnd1, hsnd2] at *
    exact dyLe_of_exp_lt u1 l2 (by omega)

theorem truncDyadic_mono {m m' : Nat} {E F : Int} (h : dyLe m E m' F) :
    truncDyadic m E ≤ truncDyadic m' F := by
  unfold dyLe at h
  unfold truncDyadic
  by_cases h1 : 0 ≤ E <;> by_cases h2 : 0 ≤ F
  · rw [if_pos h1, if_pos h2]
    exact scaled_shift _ _ _ _ (by omega) h
  · rw [if_pos h1, if_neg h2]
    rw [Nat.le_div_iff_mul_le (pow_pos (by omega) _)]
    have hs := scaled_shift _ _ (E.toNat + (-F).toNat) 0 (by omega) h
    rw [pow_zero, Nat.mul_one] at hs
    calc m * 2 ^ E.toNat * 2 ^ (-F).toNat = m * 2 ^ (E.toNat + (-F).toNat) := by
          rw [Nat.mul_assoc, Nat.pow_add]
      _ ≤ m' := hs
  · rw [if_neg h1, if_pos h2]
    have hs := scaled_shift _ _ 0 (F.toNat + (-E).toNat) (by omega) h
    rw [pow_zero, Nat.mul_one] at hs
    have hmain : m / 2 ^ (-E).toNat * 2 ^ (-E).toNat
        ≤ m' * 2 ^ F.toNat * 2 ^ (-E).toNat := by
      calc m / 2 ^ (-E).toNat * 2 ^ (-E).toNat ≤ m := Nat.div_mul_le_self m _
        _ ≤ m' * 2 ^ (F.toNat + (-E).toNat) := hs
        _ = m' * 2 ^ F.toNat * 2 ^ (-E).toNat := by rw [Nat.mul_assoc, Nat.pow_add]
    exact Nat.le_of_mul_le_mul_right hmain (pow_pos (by omega) _)
  · rw [if_neg h1, if_neg h2]
    rw [Nat.le_div_iff_mul_le (pow_pos (by omega) _)]
    have hs := scaled_shift _ _ ((-F).toNat) ((-E).toNat) (by omega) h
    have hq : m / 2 ^ (-E).toNat * 2 ^ (-E).toNat ≤ m := Nat.div_mul_le_self m _
    have hmain : m / 2 ^ (-E).toNat * 2 ^ (-F).toNat * 2 ^ (-E).toNat
        ≤ m' * 2 ^ (-E).toNat := by
      calc m / 2 ^ (-E).toNat * 2 ^ (-F).toNat * 2 ^ (-E).toNat
          = m / 2 ^ (-E).toNat * 2 ^ (-E).toNat * 2 ^ (-F).toNat := by ring
        _ ≤ m * 2 ^ (-F).toNat := Nat.mul_le_mul_right _ hq
        _ ≤ m' * 2 ^ (-E).toNat := hs
    exact Nat.le_of_mul_le_mul_right hmain (pow_pos (by omega) _)

theorem pyTruncPct_zero_left (t : Nat) : pyTruncPct 0 t = 0 := by
  simp [pyTruncPct, roundQuotient, roundDyadic, truncDyadic]

theorem pyTruncPct_zero_right (c : Nat) : pyTruncPct c 0 = 0 := by
  simp [pyTruncPct, roundQuotient, roundDyadic, truncDyadic]

theorem roundQuotient_self (t : Nat) (ht : 0 < t) : roundQuotient t t = (2 ^ 52, -52) := by
  unfold roundQuotient
  rw [if_neg (by omega)]
  simp only [floorLog2Frac_self]
  rw [Prod.mk.injEq]
  constructor
  · rw [show ((52 - 0 : Int)).toNat = 52 from rfl, show (((0 : Int) - 52)).toNat = 0 from rfl,
      pow_zero, Nat.mul_one, Nat.mul_comm]
    exact rheDiv_mul_cancel _ _ ht
  · decide

theorem pyTruncPct_self (t : Nat) (ht : 0 < t) : pyTruncPct t t = 100 := by
  unfold pyTruncPct
  rw [roundQuotient_self t ht]
  decide

theorem pyTruncPct_mono (t : Nat) {c c' : Nat} (h : c ≤ c') :
    pyTruncPct c t ≤ pyTruncPct c' t := by
  rcases Nat.eq_zero_or_pos t with rfl | ht
  · rw [pyTruncPct_zero_right, pyTruncPct_zero_right]
  rcases Nat.eq_zero_or_pos c with rfl | hc
  · rw [pyTruncPct_zero_left]
    exact Nat.zero_le _
  have hc' : 0 < c' := by omega
  have hl1 := roundQuotient_m_lower c t hc ht
  have hl2 := roundQuotient_m_lower c' t hc' ht
  have h58 : (2 : Nat) ^ 58 ≤ (roundQuotient c t).1 * 100 := by
    calc (2 : Nat) ^ 58 = 2 ^ 52 * 64 := by norm_num
      _ ≤ 2 ^ 52 * 100 := Nat.mul_le_mul_left _ (by omega)
      _ ≤ (roundQuotient c t).1 * 100 := Nat.mul_le_mul_right _ hl1
  have h58' : (2 : Nat) ^ 58 ≤ (roundQuotient c' t).1 * 100 := by
    calc (2 : Nat) ^ 58 = 2 ^ 52 * 64 := by norm_num
      _ ≤ 2 ^ 52 * 100 := Nat.mul_le_mul_left _ (by omega)
      _ ≤ (roundQuotient c' t).1 * 100 := Nat.mul_le_mul_right _ hl2
  have hq := roundQuotient_mono t h hc ht
  have hq100 : dyLe ((roundQuotient c t).1 * 100) (roundQuotient c t).2
      ((roundQuotient c' t).1 * 100) (roundQuotient c' t).2 := by
    unfold dyLe at hq ⊢
    calc (roundQuotient c t).1 * 100 * 2 ^ ((roundQuotient c t).2 - (roundQuotient c' t).2).toNat
        = (roundQuotient c t).1 * 2 ^ ((roundQuotient c t).2 - (roundQuotient c' t).2).toNat
          * 100 := by ring
      _ ≤ (roundQuotient c' t).1 * 2 ^ ((roundQuotient c' t).2 - (roundQuotient c t).2).toNat
          * 100 := Nat.mul_le_mul_right _ hq
      _ = (roundQuotient c' t).1 * 100
          * 2 ^ ((roundQuotient c' t).2 - (roundQuotient c t).2).toNat := by ring
  unfold pyTruncPct
  exact truncDyadic_mono (roundDyadic_mono h58 h58' hq100)

theorem pyTruncPct_le_100 (c t : Nat) (h : c ≤ t) : pyTruncPct c t ≤ 100 := by
  rcases Nat.eq_zero_or_pos t with rfl | ht
  · rw [pyTruncPct_zero_right]
    omega
  · calc pyTruncPct c t ≤ pyTruncPct t t := pyTruncPct_mono t h
      _ = 100 := pyTruncPct_self t ht

theorem changedSize_le_map_pollEntry (g : FilePath' → Option Int)
    (l : List (FilePath' × FileStatus)) :
    changedSize l ≤ changedSize (l.map (pollEntry g)) := by
  induction l with
  | nil => exact Nat.le_refl 0
  | cons e l ih =>
    rw [List.map_cons, changedSize_cons, changedSize_cons, pollEntry_size]
    by_cases hc : e.2.changed = true
    · have hc2 : (pollEntry g e).2.changed = true := by
        rw [pollEntry_changed, hc, Bool.true_or]
      rw [if_pos hc, if_pos hc2]
      exact Nat.add_le_add_left ih _
    · rw [Bool.not_eq_true] at hc
      simp only [hc, Bool.false_eq_true, if_false]
      by_cases hc2 : (pollEntry g e).2.changed = true
      · simp only [hc2, if_true]
        exact le_trans ih (Nat.le_add_left _ _)
      · rw [Bool.not_eq_true] at hc2
        simp only [hc2, Bool.false_eq_true, if_false]
        exact ih

theorem pollN_fileStatuses_succ (envs : Nat → OverlayEnv) (s : OverlayState) (k : Nat) :
    (pollN envs s (k + 1)).fileStatuses
      = (pollN envs s k).fileStatuses.map (pollEntry (envs k).getOverlay) := rfl

theorem changedSize_pollN_mono (envs : Nat → OverlayEnv) (s : OverlayState) (k : Nat) :
    ∀ j, k ≤ j →
      changedSize (pollN envs s k).fileStatuses ≤ changedSize (pollN envs s j).fileStatuses
  | 0, h => by
    have hk : k = 0 := by omega
    subst hk
    exact Nat.le_refl _
  | j + 1, h => by
    rcases Nat.lt_or_ge k (j + 1) with hlt | hge
    · refine le_trans (changedSize_pollN_mono envs s k j (by omega)) ?_
      rw [pollN_fileStatuses_succ]
      exact changedSize_le_map_pollEntry _ _
    · have hk : k = j + 1 := by omega
      subst hk
      exact Nat.le_refl _

theorem get_totalSize (env : OverlayEnv) (s : OverlayState) :
    (get_upload_progress env s).1.totalSize = s.totalSize := rfl

theorem pollN_totalSize (envs : Nat → OverlayEnv) (s : OverlayState) :
    ∀ n, (pollN envs s n).totalSize = s.totalSize
  | 0 => rfl
  | Nat.succ n => pollN_totalSize envs s n

theorem poll_value_eq (envs : Nat → OverlayEnv) (s : OverlayState) (k : Nat)
    (hpos : 0 < s.totalSize) :
    (get_upload_progress (envs k) (pollN envs s k)).2
      = ((pyTruncPct (changedSize (pollN envs s (k + 1)).fileStatuses)
            s.totalSize : Nat) : Int) := by
  simp only [get_upload_progress]
  rw [if_pos (show 0 < (pollN envs s k).totalSize by rw [pollN_totalSize]; exact hpos),
    pollN_fileStatuses_succ, pollN_totalSize]

theorem value100_stable (envs : Nat → OverlayEnv) (s : OverlayState)
    (hInv : ProgressInv s) (n : Nat)
    (h100 : (get_upload_progress (envs n) (pollN envs s n)).2 = 100) :
    ∀ m, n ≤ m → (get_upload_progress (envs m) (pollN envs s m)).2 = 100 := by
  intro m hnm
  rcases Nat.eq_zero_or_pos s.totalSize with h0 | hpos
  · exfalso
    obtain ⟨_, hprog⟩ := pollN_inv envs s hInv n
    have hnp : ¬ 0 < (pollN envs s n).totalSize := by
      rw [pollN_totalSize]
      omega
    have hv : (get_upload_progress (envs n) (pollN envs s n)).2
        = (pollN envs s n).progress := by
      simp only [get_upload_progress]
      rw [if_neg hnp]
    rw [hv, hprog (by rw [pollN_totalSize]; omega)] at h100
    exact absurd h100 (by decide)
  · rw [poll_value_eq envs s n hpos] at h100
    rw [poll_value_eq envs s m hpos]
    have h100n : pyTruncPct (changedSize (pollN envs s (n + 1)).fileStatuses)
        s.totalSize = 100 := by
      exact_mod_cast h100
    have hmono := changedSize_pollN_mono envs s (n + 1) (m + 1) (by omega)
    have hub : changedSize (pollN envs s (m + 1)).fileStatuses ≤ s.totalSize := by
      obtain ⟨hts, _⟩ := pollN_inv envs s hInv (m + 1)
      rw [pollN_totalSize] at hts
      exact le_trans (changedSize_le_trackedSize _) hts.ge
    have hle := pyTruncPct_mono s.totalSize hmono
    have hle2 := pyTruncPct_le_100 (changedSize (pollN envs s (m + 1)).fileStatuses)
      s.totalSize hub
    rw [h100n] at hle
    have heq : pyTruncPct (changedSize (pollN envs s (m + 1)).fileStatuses)
        s.totalSize = 100 := by omega
    exact_mod_cast heq

theorem uploadStep_totalSize (env : OverlayEnv) (srcDir dstFolder : FilePath')
    (acc : OverlayState × List FSEffect) (f : FilePath') :
    (uploadStep env srcDir dstFolder acc f).1.totalSize
      = acc.1.totalSize + max 1 (env.getSize f) := by
  rcases hov : env.getOverlay (get_new_path srcDir dstFolder f) with _ | idx <;>
    simp only [uploadStep, hov]

theorem uploadFold_totalSize (env : OverlayEnv) (srcDir dstFolder : FilePath') :
    ∀ (l : List FilePath') (acc : OverlayState × List FSEffect),
      (l.foldl (uploadStep env srcDir dstFolder) acc).1.totalSize
        = acc.1.totalSize + sumSizes env l
  | [], acc => by
    have h0 : sumSizes env [] = 0 := rfl
    rw [List.foldl_nil, h0]
    omega
  | f :: l, acc => by
    rw [List.foldl_cons, uploadFold_totalSize env srcDir dstFolder l
      (uploadStep env srcDir dstFolder acc f), sumSizes_cons, uploadStep_totalSize]
    omega

theorem upload_files_totalSize (env : OverlayEnv) (srcDir dstFolder : FilePath')
    (s : OverlayState) (l : List FilePath')
    (hnc : (l.filter (fun f => env.isFile (get_new_path srcDir dstFolder f))).isEmpty = true
           ∨ env.confirm = true) :
    (upload_files env srcDir dstFolder s l).1.totalSize = sumSizes env l := by
  unfold upload_files
  cases hE : (l.filter (fun f => env.isFile (get_new_path srcDir dstFolder f))).isEmpty with
  | true =>
    simp only [hE, if_true]
    rw [uploadFold_totalSize]
    simp
  | false =>
    have hconf : env.confirm = true := by
      rcases hnc with h | h
      · rw [h] at hE
        cases hE
      · exact h
    simp only [hE, hconf, if_false, if_true, Bool.false_eq_true]
    rw [uploadFold_totalSize]
    simp

theorem get_cancelled (env : OverlayEnv) (s : OverlayState) (h : CancelledShape s) :
    CancelledShape (get_upload_progress env s).1 ∧ (get_upload_progress env s).2 = -1 := by
  obtain ⟨h1, h2, h3⟩ := h
  have hnp : ¬ 0 < s.totalSize := by omega
  refine ⟨⟨?_, ?_, ?_⟩, ?_⟩
  · simp [get_upload_progress, h1]
  · simp [get_upload_progress, h2]
  · simp [get_upload_progress, hnp, h3]
  · simp [get_upload_progress, hnp, h3]

theorem pollN_cancelled (envs : Nat → OverlayEnv) (s : OverlayState)
    (h : CancelledShape s) : ∀ n, CancelledShape (pollN envs s n)
  | 0 => h
  | Nat.succ n => (get_cancelled (envs n) _ (pollN_cancelled envs s h n)).1

/-- C3: a tracked file is marked completed by polling exactly when the
polled OS signal departs from the value captured right after the copy: in
the overlay manager a poll maps pollEntry over every entry, and an entry
comes out changed exactly when it was already changed or the fetched
overlay index exists and differs from the recorded initial one; in the
legacy last-access manager the check marks an entry exactly when it was
already changed or the current access time is at least
ACCESS_CHANGE_THRESHOLD seconds past the recorded initial time; in both, a
set flag is never cleared by polling. -/
theorem c3_changed_exactly_on_signal_departure :
    (∀ (env : OverlayEnv) (s : OverlayState),
        (get_upload_progress env s).1.fileStatuses
          = s.fileStatuses.map (pollEntry env.getOverlay))
    ∧ (∀ (g : FilePath' → Option Int) (e : FilePath' × FileStatus),
        (pollEntry g e).2.changed
          = (e.2.changed || (match g e.1 with
              | some cur => decide (cur ≠ e.2.initialOverlay)
              | none => false)))
    ∧ (∀ (threshold currentAccessed : Int) (st : AccessStatus),
        (check_last_accessed threshold currentAccessed st).changed
          = (st.changed || decide (threshold ≤ currentAccessed - st.initial)))
    ∧ (∀ (g : FilePath' → Option Int) (e : FilePath' × FileStatus),
        e.2.changed = true → (pollEntry g e).2.changed = true)
    ∧ (∀ (threshold currentAccessed : Int) (st : AccessStatus),
        st.changed = true →
          (check_last_accessed threshold currentAccessed st).changed = true) := by
  refine ⟨fun env s => rfl, pollEntry_changed, ?_, ?_, ?_⟩
  · intro t c st
    unfold check_last_accessed
    by_cases h : t ≤ c - st.initial <;> simp [h]
  · intro g e h
    rw [pollEntry_changed, h, Bool.true_or]
  · intro t c st h
    unfold check_last_accessed
    by_cases hc : t ≤ c - st.initial <;> simp [hc, h]

/-- Witness for C3: already-marked records stay marked under both signals. -/
theorem c3_changed_exactly_on_signal_departure_witness :
    (pollEntry (fun _ => none) (["p"], ⟨0, true, 1⟩)).2.changed = true
    ∧ (check_last_accessed 3 0 ⟨0, true⟩).changed = true :=
  ⟨c3_changed_exactly_on_signal_departure.2.2.2.1 (fun _ => none) (["p"], ⟨0, true, 1⟩) rfl,
   c3_changed_exactly_on_signal_departure.2.2.2.2 3 0 ⟨0, true⟩ rfl⟩

/-- Counterexample to C6 as stated: upload_files empties the shared status
dictionary with self._file_statuses.clear() (src/upload_manager.py line 156)
outside any with self._lock block, although the clear mutates the dictionary
and can race with a monitor or polling thread of a previous batch that never
reached 100 and is still running. -/
theorem c6_unlocked_clear_counterexample :
    StatusDictAccess.isMutation StatusDictAccess.uploadFilesClear = true
    ∧ StatusDictAccess.holdsLock StatusDictAccess.uploadFilesClear = false :=
  ⟨rfl, rfl⟩

/-- C6 amended: every mutation of the shared per-file status dictionary of
src/upload_manager.py except the upload_files clear of line 156 — the copy
thread recording initial statuses (line 185), the polling threads setting
changed flags (line 106), delete_file removing entries (line 239) — happens
inside a with self._lock block; the clear alone is an unlocked mutation. -/
theorem c6_amended_every_other_mutation_locked (a : StatusDictAccess)
    (hm : a.isMutation = true) (hne : a ≠ StatusDictAccess.uploadFilesClear) :
    a.holdsLock = true := by
  cases a
  · rfl
  · rfl
  · rfl
  · exact absurd hm (by decide)
  · rfl
  · exact absurd rfl hne

/-- Witness for C6 amended: the delete_file removal site is a locked
mutation. -/
theorem c6_amended_every_other_mutation_locked_witness :
    StatusDictAccess.isMutation StatusDictAccess.deleteRemoveEntry = true
    ∧ StatusDictAccess.holdsLock StatusDictAccess.deleteRemoveEntry = true :=
  ⟨by decide, c6_amended_every_other_mutation_locked StatusDictAccess.deleteRemoveEntry
    (by decide) (by decide)⟩

/-- C10: delete_file removes the destination file and drops its status entry
exactly when the joined destination path is tracked with changed = True and
the removal does not raise; an untracked path, an unchanged entry, or a
FileNotFoundError (the file is missing, so the del statement is never
reached) leaves both the file system and the status dictionary unchanged. -/
theorem c10_delete_file_cases (fileExists : FilePath' → Bool)
    (srcDir dstFolder : FilePath') (s : OverlayState) (p : FilePath') :
    (∀ st, dictLookup (dstFolder ++ p.drop srcDir.length) s.fileStatuses = some st →
        st.changed = true → fileExists (dstFolder ++ p.drop srcDir.length) = true →
        delete_file fileExists srcDir dstFolder s p
          = ({ s with fileStatuses :=
                dictErase (dstFolder ++ p.drop srcDir.length) s.fileStatuses },
             [FSEffect.removeDst (dstFolder ++ p.drop srcDir.length)]))
    ∧ (∀ st, dictLookup (dstFolder ++ p.drop srcDir.length) s.fileStatuses = some st →
        st.changed = true → fileExists (dstFolder ++ p.drop srcDir.length) = false →
        delete_file fileExists srcDir dstFolder s p = (s, []))
    ∧ (∀ st, dictLookup (dstFolder ++ p.drop srcDir.length) s.fileStatuses = some st →
        st.changed = false →
        delete_file fileExists srcDir dstFolder s p = (s, []))
    ∧ (dictLookup (dstFolder ++ p.drop srcDir.length) s.fileStatuses = none →
        delete_file fileExists srcDir dstFolder s p = (s, [])) := by
  refine ⟨?_, ?_, ?_, ?_⟩
  · intro st hl hc hf
    simp only [delete_file, hl, hc, hf, if_true]
  · intro st hl hc hf
    simp only [delete_file, hl, hc, hf, if_true, Bool.false_eq_true, if_false]
  · intro st hl hc
    simp only [delete_file, hl, hc, Bool.false_eq_true, if_false]
  · intro hl
    simp only [delete_file, hl]

/-- Witness for C10: a tracked changed entry on an existing file is removed. -/
theorem c10_delete_file_cases_witness :
    delete_file (fun _ => true) ["s"] ["d"]
        { fileStatuses := [(["d", "a"], ⟨0, true, 1⟩)], progress := 0, srcFiles := [],
          totalSize := 1, completedSize := 0 } ["s", "a"]
      = ({ fileStatuses := [], progress := 0, srcFiles := [],
           totalSize := 1, completedSize := 0 }, [FSEffect.removeDst ["d", "a"]]) := by
  have h := (c10_delete_file_cases (fun _ => true) ["s"] ["d"]
      { fileStatuses := [(["d", "a"], ⟨0, true, 1⟩)], progress := 0, srcFiles := [],
        totalSize := 1, completedSize := 0 } ["s", "a"]).1
    ⟨0, true, 1⟩ (by decide) rfl rfl
  rw [h]
  simp [dictErase]

/-- C7: when no VSCode window blocks startup, main runs the workflow steps in
source order — folder selection, optional old-workspace handling, workspace
materialization, workspace-file generation, editor launch and wait, upload
selection — and trashes the local workspace and deletes the generated
workspace file only after the upload-selection step returns successfully;
when the user selects no folder it returns 0 having performed nothing after
the selection call; and the cleanup steps never appear unless the
upload-selection step succeeded. -/
theorem c7_main_workflow_order (env : MainEnv) :
    (env.vscodeRunning = false → env.selectedFolder = none →
      main_workflow env = (0, [MainEvent.selectFolderCall]))
    ∧ (∀ f, env.vscodeRunning = false → env.selectedFolder = some f →
        env.replacerOk = true → env.runAndWaitOk = true → env.selectUploadOk = true →
        main_workflow env = (0,
          [MainEvent.selectFolderCall] ++
            (if env.workspaceDirIsDir then
              [MainEvent.askRestore] ++
                (if env.restoreAnswer = "" then [MainEvent.trashOldWorkspace] else [])
            else []) ++
            [MainEvent.makeWorkspaceDir, MainEvent.replacerProcess,
             MainEvent.deleteLastHistory, MainEvent.runAndWait,
             MainEvent.deleteWorkspaceStorage, MainEvent.deleteLastHistory,
             MainEvent.selectUploadCall, MainEvent.trashWorkspace,
             MainEvent.removeWorkspaceFile]))
    ∧ (env.selectUploadOk = false →
        MainEvent.trashWorkspace ∉ (main_workflow env).2
        ∧ MainEvent.removeWorkspaceFile ∉ (main_workflow env).2) := by
  refine ⟨?_, ?_, ?_⟩
  · intro hv hsel
    simp [main_workflow, hv, hsel]
  · intro f hv hsel hr hw hu
    simp [main_workflow, hv, hsel, hr, hw, hu]
  · intro hu
    by_cases hv : env.vscodeRunning
    · simp [main_workflow, hv]
    · rcases hsel : env.selectedFolder with _ | f
      · simp [main_workflow, hv, hsel]
      · by_cases hr : env.replacerOk
        · by_cases hw : env.runAndWaitOk
          · constructor <;> simp [main_workflow, hv, hsel, hr, hw, hu]
          · constructor <;> simp [main_workflow, hv, hsel, hr, hw]
        · constructor <;> simp [main_workflow, hv, hsel, hr]

/-- Witness for C7: a clean run performs exactly the ordered step list. -/
theorem c7_main_workflow_order_witness :
    main_workflow
        { vscodeRunning := false, selectedFolder := some "F", workspaceDirIsDir := false,
          restoreAnswer := "yes", replacerOk := true, runAndWaitOk := true,
          selectUploadOk := true }
      = (0, [MainEvent.selectFolderCall, MainEvent.makeWorkspaceDir,
             MainEvent.replacerProcess, MainEvent.deleteLastHistory, MainEvent.runAndWait,
             MainEvent.deleteWorkspaceStorage, MainEvent.deleteLastHistory,
             MainEvent.selectUploadCall, MainEvent.trashWorkspace,
             MainEvent.removeWorkspaceFile]) := by
  have h := (c7_main_workflow_order
      { vscodeRunning := false, selectedFolder := some "F", workspaceDirIsDir := false,
        restoreAnswer := "yes", replacerOk := true, runAndWaitOk := true,
        selectUploadOk := true }).2.1 "F" rfl rfl rfl rfl rfl
  simpa using h

theorem trackedSize_dictErase_le (k : FilePath') (l : List (FilePath' × FileStatus)) :
    trackedSize (dictErase k l) ≤ trackedSize l := by
  induction l with
  | nil => exact Nat.le_refl 0
  | cons e l ih =>
    obtain ⟨k', v'⟩ := e
    simp only [dictErase]
    by_cases h : k' = k
    · rw [if_pos h, trackedSize_cons]
      omega
    · rw [if_neg h, trackedSize_cons, trackedSize_cons]
      omega

theorem trackedSize_filterMap_le (env : OverlayEnv) (srcDir dstFolder : FilePath')
    (l : List FilePath') :
    trackedSize (l.filterMap (uploadRecord env srcDir dstFolder)) ≤ sumSizes env l := by
  induction l with
  | nil => exact Nat.le_refl 0
  | cons f l ih =>
    rcases hov : env.getOverlay (get_new_path srcDir dstFolder f) with _ | idx
    · rw [List.filterMap_cons, uploadRecord_eq_none env srcDir dstFolder f hov, sumSizes_cons]
      dsimp only
      omega
    · rw [List.filterMap_cons, uploadRecord_eq_some env srcDir dstFolder f idx hov,
        trackedSize_cons, sumSizes_cons]
      exact Nat.add_le_add_left ih _

theorem upload_establishes_range (env : OverlayEnv) (srcDir dstFolder : FilePath')
    (s : OverlayState) (l : List FilePath')
    (hnodup : (l.map (get_new_path srcDir dstFolder)).Nodup)
    (hnc : (l.filter (fun f => env.isFile (get_new_path srcDir dstFolder f))).isEmpty = true
           ∨ env.confirm = true) :
    RangeInv (upload_files env srcDir dstFolder s l).1 := by
  obtain ⟨h1, h2, h3, h4⟩ := upload_files_spec env srcDir dstFolder s l hnodup hnc
  refine ⟨?_, ?_, ?_⟩
  · rw [h1, h2]
    exact trackedSize_filterMap_le env srcDir dstFolder l
  · rw [h3]
  · rw [h3]
    omega

theorem get_preserves_range (env : OverlayEnv) (s : OverlayState) (h : RangeInv s) :
    RangeInv (get_upload_progress env s).1
    ∧ 0 ≤ (get_upload_progress env s).2 ∧ (get_upload_progress env s).2 ≤ 100 := by
  obtain ⟨h1, h2, h3⟩ := h
  have hts : trackedSize (s.fileStatuses.map (pollEntry env.getOverlay))
      = trackedSize s.fileStatuses := trackedSize_map_pollEntry _ _
  have hval : 0 ≤ (get_upload_progress env s).2 ∧ (get_upload_progress env s).2 ≤ 100 := by
    simp only [get_upload_progress]
    by_cases hp : 0 < s.totalSize
    · rw [if_pos hp]
      have hc : changedSize (s.fileStatuses.map (pollEntry env.getOverlay)) ≤ s.totalSize :=
        le_trans (changedSize_le_trackedSize _) (le_trans (le_of_eq hts) h1)
      constructor
      · exact_mod_cast Nat.zero_le _
      · exact_mod_cast pyTruncPct_le_100 _ _ hc
    · rw [if_neg hp]
      exact ⟨h2, h3⟩
  refine ⟨⟨?_, hval.1, hval.2⟩, hval⟩
  show trackedSize (s.fileStatuses.map (pollEntry env.getOverlay)) ≤ s.totalSize
  rw [hts]
  exact h1

theorem delete_preserves_range (fe : FilePath' → Bool) (srcDir dstFolder : FilePath')
    (s : OverlayState) (p : FilePath') (h : RangeInv s) :
    RangeInv (delete_file fe srcDir dstFolder s p).1 := by
  obtain ⟨h1, h2, h3⟩ := h
  rcases hl : dictLookup (dstFolder ++ p.drop srcDir.length) s.fileStatuses with _ | st
  · simp only [delete_file, hl]
    exact ⟨h1, h2, h3⟩
  · by_cases hc : st.changed = true
    · by_cases hf : fe (dstFolder ++ p.drop srcDir.length) = true
      · simp only [delete_file, hl, hc, hf, if_true]
        exact ⟨le_trans (trackedSize_dictErase_le _ _) h1, h2, h3⟩
      · rw [Bool.not_eq_true] at hf
        simp only [delete_file, hl, hc, hf, if_true, Bool.false_eq_true, if_false]
        exact ⟨h1, h2, h3⟩
    · rw [Bool.not_eq_true] at hc
      simp only [delete_file, hl, hc, Bool.false_eq_true, if_false]
      exact ⟨h1, h2, h3⟩

theorem runOps_preserves_range (srcDir dstFolder : FilePath') :
    ∀ (ops : List ManagerOp) (s : OverlayState), RangeInv s →
      RangeInv (runOps srcDir dstFolder ops s)
  | [], _, h => h
  | ManagerOp.poll env :: ops, s, h =>
      runOps_preserves_range srcDir dstFolder ops _ (get_preserves_range env s h).1
  | ManagerOp.del fe p :: ops, s, h =>
      runOps_preserves_range srcDir dstFolder ops _
        (delete_preserves_range fe srcDir dstFolder s p h)

/-- Counterexample to C4 as stated: after a declined overwrite confirmation
the very next get_upload_progress call returns -1, outside 0..100. -/
theorem c4_range_counterexample :
    ¬ (0 ≤ (get_upload_progress
        { isFile := fun _ => true, confirm := false, getSize := fun _ => 0,
          getOverlay := fun _ => some 0 }
        (upload_files
          { isFile := fun _ => true, confirm := false, getSize := fun _ => 0,
            getOverlay := fun _ => some 0 }
          ["s"] ["d"] OverlayState.init [["s", "a"]]).1).2) := by decide

/-- C4 amended: every value get_upload_progress returns for a batch that was
not cancelled lies between 0 and 100 inclusive, across any interleaving of
polls and delete_file calls; only the cancel path escapes the range, with
the sentinel -1. -/
theorem c4_amended_progress_range (env env' : OverlayEnv) (srcDir dstFolder : FilePath')
    (s : OverlayState) (fileList : List FilePath') (ops : List ManagerOp)
    (hnodup : (fileList.map (get_new_path srcDir dstFolder)).Nodup)
    (hnc : (fileList.filter
        (fun f => env.isFile (get_new_path srcDir dstFolder f))).isEmpty = true
      ∨ env.confirm = true) :
    0 ≤ (get_upload_progress env'
        (runOps srcDir dstFolder ops (upload_files env srcDir dstFolder s fileList).1)).2
    ∧ (get_upload_progress env'
        (runOps srcDir dstFolder ops (upload_files env srcDir dstFolder s fileList).1)).2
      ≤ 100 :=
  (get_preserves_range env' _
    (runOps_preserves_range srcDir dstFolder ops _
      (upload_establishes_range env srcDir dstFolder s fileList hnodup hnc))).2

/-- Witness for C4 amended: concrete two-file batch, one poll, in range. -/
theorem c4_amended_progress_range_witness :
    0 ≤ (get_upload_progress
        { isFile := fun _ => false, confirm := true, getSize := fun _ => 3,
          getOverlay := fun _ => some 1 }
        (runOps ["s"] ["d"] []
          (upload_files
            { isFile := fun _ => false, confirm := false, getSize := fun _ => 3,
              getOverlay := fun _ => some 0 }
            ["s"] ["d"] OverlayState.init [["s", "a"], ["s", "b"]]).1)).2
    ∧ (get_upload_progress
        { isFile := fun _ => false, confirm := true, getSize := fun _ => 3,
          getOverlay := fun _ => some 1 }
        (runOps ["s"] ["d"] []
          (upload_files
            { isFile := fun _ => false, confirm := false, getSize := fun _ => 3,
              getOverlay := fun _ => some 0 }
            ["s"] ["d"] OverlayState.init [["s", "a"], ["s", "b"]]).1)).2 ≤ 100 :=
  c4_amended_progress_range
    { isFile := fun _ => false, confirm := false, getSize := fun _ => 3,
      getOverlay := fun _ => some 0 }
    { isFile := fun _ => false, confirm := true, getSize := fun _ => 3,
      getOverlay := fun _ => some 1 }
    ["s"] ["d"] OverlayState.init [["s", "a"], ["s", "b"]] []
    (by decide) (Or.inl (by decide))

theorem changedSize_of_allChanged (l : List (FilePath' × FileStatus))
    (h : ∀ e ∈ l, e.2.changed = true) : changedSize l = trackedSize l := by
  induction l with
  | nil => rfl
  | cons e l ih =>
    rw [changedSize_cons, trackedSize_cons, if_pos (h e (List.mem_cons_self e l)),
      ih (fun e' he' => h e' (List.mem_cons_of_mem _ he'))]

theorem upload_cancelled_shape (env : OverlayEnv) (srcDir dstFolder : FilePath')
    (s : OverlayState) (fileList : List FilePath')
    (hex : (fileList.filter
        (fun f => env.isFile (get_new_path srcDir dstFolder f))).isEmpty = false)
    (hconf : env.confirm = false) :
    CancelledShape (upload_files env srcDir dstFolder s fileList).1 := by
  unfold upload_files
  simp only [hex, hconf, Bool.false_eq_true, if_false]
  exact ⟨rfl, rfl, rfl⟩

/-- Counterexample to C5 as stated: a two-file batch reaches done (a poll
reports 100); then a delete_file call followed by another poll reports a
progress different from 100, so an operation other than upload_files does
change the reported progress after the done state. -/
theorem c5_terminal_state_counterexample :
    (get_upload_progress
        { isFile := fun _ => false, confirm := true, getSize := fun _ => 1,
          getOverlay := fun _ => some 1 }
        (upload_files
          { isFile := fun _ => false, confirm := false, getSize := fun _ => 1,
            getOverlay := fun _ => some 0 }
          ["s"] ["d"] OverlayState.init [["s", "a"], ["s", "b"]]).1).2 = 100
    ∧ (get_upload_progress
        { isFile := fun _ => false, confirm := true, getSize := fun _ => 1,
          getOverlay := fun _ => some 1 }
        (delete_file (fun _ => true) ["s"] ["d"]
          (get_upload_progress
            { isFile := fun _ => false, confirm := true, getSize := fun _ => 1,
              getOverlay := fun _ => some 1 }
            (upload_files
              { isFile := fun _ => false, confirm := false, getSize := fun _ => 1,
                getOverlay := fun _ => some 0 }
              ["s"] ["d"] OverlayState.init [["s", "a"], ["s", "b"]]).1).1
          ["s", "a"]).1).2 ≠ 100 := by decide

/-- C5 amended: for polls alone the life cycle is absorbing — once a poll of
a non-cancelled batch reports 100, every later poll reports 100, and after a
declined overwrite every poll reports -1; a delete_file call after done,
however, removes a tracked entry without adjusting the stored total, so a
later poll can report less than 100. -/
theorem c5_amended_terminal_states (env envC : OverlayEnv)
    (srcDir dstFolder : FilePath') (s sC : OverlayState)
    (fileList fileListC : List FilePath') (envs envsC : Nat → OverlayEnv) (n m : Nat)
    (hnodup : (fileList.map (get_new_path srcDir dstFolder)).Nodup)
    (hfetch : ∀ f ∈ fileList, env.getOverlay (get_new_path srcDir dstFolder f) ≠ none)
    (hnc : (fileList.filter
        (fun f => env.isFile (get_new_path srcDir dstFolder f))).isEmpty = true
      ∨ env.confirm = true)
    (hnm : n ≤ m)
    (h100 : (get_upload_progress (envs n)
        (pollN envs (upload_files env srcDir dstFolder s fileList).1 n)).2 = 100) :
    (get_upload_progress (envs m)
        (pollN envs (upload_files env srcDir dstFolder s fileList).1 m)).2 = 100
    ∧ ((fileListC.filter
          (fun f => envC.isFile (get_new_path srcDir dstFolder f))).isEmpty = false →
        envC.confirm = false →
        ∀ k, (get_upload_progress (envsC k)
          (pollN envsC (upload_files envC srcDir dstFolder sC fileListC).1 k)).2 = -1) := by
  constructor
  · obtain ⟨h1, h2, h3, h4⟩ := upload_files_spec env srcDir dstFolder s fileList hnodup hnc
    have hInv1 : ProgressInv (upload_files env srcDir dstFolder s fileList).1 := by
      constructor
      · rw [h2, h1, trackedSize_filterMap_uploadRecord env srcDir dstFolder fileList hfetch]
      · intro _
        exact h3
    exact value100_stable envs _ hInv1 n h100 m hnm
  · intro hex hconf k
    exact (get_cancelled (envsC k) _
      (pollN_cancelled envsC _
        (upload_cancelled_shape envC srcDir dstFolder sC fileListC hex hconf) k)).2

/-- Witness for C5 amended: done at poll 0 persists to poll 1, and a
cancelled batch polls to -1. -/
theorem c5_amended_terminal_states_witness :
    (get_upload_progress
        ((fun _ => ({ isFile := fun _ => false, confirm := true, getSize := fun _ => 1,
                      getOverlay := fun _ => some 1 } : OverlayEnv)) 1)
        (pollN
          (fun _ => ({ isFile := fun _ => false, confirm := true, getSize := fun _ => 1,
                       getOverlay := fun _ => some 1 } : OverlayEnv))
          (upload_files
            { isFile := fun _ => false, confirm := false, getSize := fun _ => 1,
              getOverlay := fun _ => some 0 }
            ["s"] ["d"] OverlayState.init [["s", "a"]]).1 1)).2 = 100
    ∧ (get_upload_progress
        ((fun _ => ({ isFile := fun _ => true, confirm := false, getSize := fun _ => 1,
                      getOverlay := fun _ => some 0 } : OverlayEnv)) 0)
        (pollN
          (fun _ => ({ isFile := fun _ => true, confirm := false, getSize := fun _ => 1,
                       getOverlay := fun _ => some 0 } : OverlayEnv))
          (upload_files
            { isFile := fun _ => true, confirm := false, getSize := fun _ => 1,
              getOverlay := fun _ => some 0 }
            ["s"] ["d"] OverlayState.init [["s", "a"]]).1 0)).2 = -1 := by
  obtain ⟨h1, h2⟩ := c5_amended_terminal_states
    { isFile := fun _ => false, confirm := false, getSize := fun _ => 1,
      getOverlay := fun _ => some 0 }
    { isFile := fun _ => true, confirm := false, getSize := fun _ => 1,
      getOverlay := fun _ => some 0 }
    ["s"] ["d"] OverlayState.init OverlayState.init [["s", "a"]] [["s", "a"]]
    (fun _ => ({ isFile := fun _ => false, confirm := true, getSize := fun _ => 1,
                 getOverlay := fun _ => some 1 } : OverlayEnv))
    (fun _ => ({ isFile := fun _ => true, confirm := false, getSize := fun _ => 1,
                 getOverlay := fun _ => some 0 } : OverlayEnv))
    0 1 (by decide) (by decide) (Or.inl (by decide)) (by omega) (by decide)
  exact ⟨h1, h2 (by decide) (by decide) 0⟩

theorem sumSizes_pos (env : OverlayEnv) (l : List FilePath') (h : l ≠ []) :
    0 < sumSizes env l := by
  cases l with
  | nil => exact absurd rfl h
  | cons f l =>
    rw [sumSizes_cons]
    have : 1 ≤ max 1 (env.getSize f) := Nat.le_max_left 1 _
    omega

theorem length_le_sumSizes (env : OverlayEnv) (l : List FilePath') :
    l.length ≤ sumSizes env l := by
  induction l with
  | nil => exact Nat.le_refl 0
  | cons f l ih =>
    rw [List.length_cons, sumSizes_cons]
    have : 1 ≤ max 1 (env.getSize f) := Nat.le_max_left 1 _
    omega

theorem filterMap_uploadRecord_length (env : OverlayEnv) (srcDir dstFolder : FilePath')
    (l : List FilePath')
    (hfetch : ∀ f ∈ l, env.getOverlay (get_new_path srcDir dstFolder f) ≠ none) :
    (l.filterMap (uploadRecord env srcDir dstFolder)).length = l.length := by
  induction l with
  | nil => rfl
  | cons f l ih =>
    rcases hov : env.getOverlay (get_new_path srcDir dstFolder f) with _ | idx
    · exact absurd hov (hfetch f (List.mem_cons_self f l))
    · rw [List.filterMap_cons, uploadRecord_eq_some env srcDir dstFolder f idx hov,
        List.length_cons, List.length_cons,
        ih (fun f' hf' => hfetch f' (List.mem_cons_of_mem _ hf'))]

/-- Counterexample to C8 as stated: when the overlay fetch fails for one
file of the batch, that file is copied (the copy effect is emitted) but no
status record is created for it, while its max(1, size) weight still enters
_total_size; a later poll that finds every tracked file changed then
reports 50, not 100, for a two-file batch with one failed fetch. -/
theorem c8_unrecorded_copy_counterexample :
    (upload_files
        { isFile := fun _ => false, confirm := false, getSize := fun _ => 0,
          getOverlay := fun p => if p = ["d", "b"] then none else some 0 }
        ["s"] ["d"] OverlayState.init [["s", "a"], ["s", "b"]]).2
      = [FSEffect.copy ["s", "a"] ["d", "a"], FSEffect.copy ["s", "b"] ["d", "b"]]
    ∧ dictLookup ["d", "b"]
        (upload_files
          { isFile := fun _ => false, confirm := false, getSize := fun _ => 0,
            getOverlay := fun p => if p = ["d", "b"] then none else some 0 }
          ["s"] ["d"] OverlayState.init [["s", "a"], ["s", "b"]]).1.fileStatuses = none
    ∧ ((get_upload_progress
          { isFile := fun _ => false, confirm := false, getSize := fun _ => 0,
            getOverlay := fun _ => some 1 }
          (upload_files
            { isFile := fun _ => false, confirm := false, getSize := fun _ => 0,
              getOverlay := fun p => if p = ["d", "b"] then none else some 0 }
            ["s"] ["d"] OverlayState.init [["s", "a"], ["s", "b"]]).1).1.fileStatuses.all
        (fun e => e.2.changed)) = true
    ∧ (get_upload_progress
          { isFile := fun _ => false, confirm := false, getSize := fun _ => 0,
            getOverlay := fun _ => some 1 }
          (upload_files
            { isFile := fun _ => false, confirm := false, getSize := fun _ => 0,
              getOverlay := fun p => if p = ["d", "b"] then none else some 0 }
            ["s"] ["d"] OverlayState.init [["s", "a"], ["s", "b"]]).1).2 = 50 := by
  decide

/-- C8 amended: under the dialog-flow conditions (distinct destination
paths, overlay fetch succeeding for every file of the batch), every copied
file is recorded under its destination path with weight max(1, its byte
size); the total recorded weight is positive and at least the number of
tracked files, so the guarded division in get_upload_progress never runs
with a zero divisor; and whenever a poll leaves every tracked file marked
changed it returns exactly 100 — in particular for batches of zero-byte
files. Without the fetch condition the unconditional claim fails: a file
whose fetch fails is copied but never recorded, yet still weights
_total_size (see the counterexample). -/
theorem c8_weights_positive_and_complete (env : OverlayEnv)
    (srcDir dstFolder : FilePath') (s : OverlayState) (fileList : List FilePath')
    (hne : fileList ≠ [])
    (hnodup : (fileList.map (get_new_path srcDir dstFolder)).Nodup)
    (hfetch : ∀ f ∈ fileList, env.getOverlay (get_new_path srcDir dstFolder f) ≠ none)
    (hnc : (fileList.filter
        (fun f => env.isFile (get_new_path srcDir dstFolder f))).isEmpty = true
      ∨ env.confirm = true) :
    (∀ f ∈ fileList, ∃ idx,
        env.getOverlay (get_new_path srcDir dstFolder f) = some idx
        ∧ (get_new_path srcDir dstFolder f,
            (⟨idx, false, max 1 (env.getSize f)⟩ : FileStatus))
          ∈ (upload_files env srcDir dstFolder s fileList).1.fileStatuses)
    ∧ 0 < (upload_files env srcDir dstFolder s fileList).1.totalSize
    ∧ (upload_files env srcDir dstFolder s fileList).1.fileStatuses.length
        ≤ (upload_files env srcDir dstFolder s fileList).1.totalSize
    ∧ ∀ (envs : Nat → OverlayEnv) (n : Nat),
        (∀ e ∈ (pollN envs (upload_files env srcDir dstFolder s fileList).1 (n + 1)).fileStatuses,
            e.2.changed = true) →
        (get_upload_progress (envs n)
          (pollN envs (upload_files env srcDir dstFolder s fileList).1 n)).2 = 100 := by
  obtain ⟨h1, h2, h3, h4⟩ := upload_files_spec env srcDir dstFolder s fileList hnodup hnc
  have hInv1 : ProgressInv (upload_files env srcDir dstFolder s fileList).1 := by
    constructor
    · rw [h2, h1, trackedSize_filterMap_uploadRecord env srcDir dstFolder fileList hfetch]
    · intro _
      exact h3
  have hpos : 0 < (upload_files env srcDir dstFolder s fileList).1.totalSize := by
    rw [h2]
    exact sumSizes_pos env fileList hne
  refine ⟨?_, hpos, ?_, ?_⟩
  · intro f hf
    rcases hov : env.getOverlay (get_new_path srcDir dstFolder f) with _ | idx
    · exact absurd hov (hfetch f hf)
    · refine ⟨idx, rfl, ?_⟩
      rw [h1]
      exact List.mem_filterMap.2 ⟨f, hf, uploadRecord_eq_some env srcDir dstFolder f idx hov⟩
  · rw [h1, h2, filterMap_uploadRecord_length env srcDir dstFolder fileList hfetch]
    exact length_le_sumSizes env fileList
  · intro envs n hall
    obtain ⟨hts, _⟩ :=
      pollN_inv envs (upload_files env srcDir dstFolder s fileList).1 hInv1 n
    have hp : 0 < (pollN envs (upload_files env srcDir dstFolder s fileList).1 n).totalSize := by
      rw [pollN_totalSize]
      exact hpos
    have hc : changedSize
        ((pollN envs (upload_files env srcDir dstFolder s fileList).1 n).fileStatuses.map
          (pollEntry (envs n).getOverlay))
        = (pollN envs (upload_files env srcDir dstFolder s fileList).1 n).totalSize := by
      have hall' : ∀ e ∈ (pollN envs
            (upload_files env srcDir dstFolder s fileList).1 n).fileStatuses.map
            (pollEntry (envs n).getOverlay), e.2.changed = true := hall
      rw [changedSize_of_allChanged _ hall', trackedSize_map_pollEntry]
      exact hts.symm
    simp only [get_upload_progress, if_pos hp, hc]
    rw [pyTruncPct_self _ hp]
    rfl

/-- Witness for C8: a batch of one zero-byte file gets weight 1 and reaches
exactly 100 when its overlay index flips. -/
theorem c8_weights_positive_and_complete_witness :
    0 < (upload_files
        { isFile := fun _ => false, confirm := false, getSize := fun _ => 0,
          getOverlay := fun _ => some 0 }
        ["s"] ["d"] OverlayState.init [["s", "a"]]).1.totalSize
    ∧ (upload_files
        { isFile := fun _ => false, confirm := false, getSize := fun _ => 0,
          getOverlay := fun _ => some 0 }
        ["s"] ["d"] OverlayState.init [["s", "a"]]).1.fileStatuses.length
      ≤ (upload_files
        { isFile := fun _ => false, confirm := false, getSize := fun _ => 0,
          getOverlay := fun _ => some 0 }
        ["s"] ["d"] OverlayState.init [["s", "a"]]).1.totalSize
    ∧ (get_upload_progress
        ((fun _ => ({ isFile := fun _ => false, confirm := false, getSize := fun _ => 0,
                      getOverlay := fun _ => some 1 } : OverlayEnv)) 0)
        (pollN
          (fun _ => ({ isFile := fun _ => false, confirm := false, getSize := fun _ => 0,
                       getOverlay := fun _ => some 1 } : OverlayEnv))
          (upload_files
            { isFile := fun _ => false, confirm := false, getSize := fun _ => 0,
              getOverlay := fun _ => some 0 }
            ["s"] ["d"] OverlayState.init [["s", "a"]]).1 0)).2 = 100 := by
  obtain ⟨m1, m2, m3, m4⟩ := c8_weights_positive_and_complete
    { isFile := fun _ => false, confirm := false, getSize := fun _ => 0,
      getOverlay := fun _ => some 0 }
    ["s"] ["d"] OverlayState.init [["s", "a"]]
    (by decide) (by decide) (by decide) (Or.inl (by decide))
  exact ⟨m2, m3, m4
    (fun _ => ({ isFile := fun _ => false, confirm := false, getSize := fun _ => 0,
                 getOverlay := fun _ => some 1 } : OverlayEnv)) 0 (by decide)⟩

/-- Counterexample to C1 as stated: a non-cancelled two-file batch of 29
and 71 bytes with only the 29-byte file completed reports 28, while the
integer part of 100 * 29 / 100 — the exact size-weighted ratio the claim
names — is 29: the binary64 value of 29/100 times 100.0 rounds to just
below 29 and int() truncates it to 28. -/
theorem c1_exact_ratio_counterexample :
    (get_upload_progress
        { isFile := fun _ => false, confirm := false, getSize := fun _ => 0,
          getOverlay := fun p => if p = ["d", "a"] then some 1 else some 0 }
        (upload_files
          { isFile := fun _ => false, confirm := false,
            getSize := fun p => if p = ["s", "a"] then 29 else 71,
            getOverlay := fun _ => some 0 }
          ["s"] ["d"] OverlayState.init [["s", "a"], ["s", "b"]]).1).2 = 28
    ∧ (changedSize
          ((upload_files
            { isFile := fun _ => false, confirm := false,
              getSize := fun p => if p = ["s", "a"] then 29 else 71,
              getOverlay := fun _ => some 0 }
            ["s"] ["d"] OverlayState.init [["s", "a"], ["s", "b"]]).1.fileStatuses.map
            (pollEntry (fun p => if p = ["d", "a"] then some 1 else some 0)))
        * 100
        / (upload_files
            { isFile := fun _ => false, confirm := false,
              getSize := fun p => if p = ["s", "a"] then 29 else 71,
              getOverlay := fun _ => some 0 }
            ["s"] ["d"] OverlayState.init [["s", "a"], ["s", "b"]]).1.totalSize : Nat)
      = 29 := by
  decide

/-- C1 amended: for every batch that is not cancelled, the stored divisor
is the max(1, byte size) total over every file of the batch — including
files whose overlay fetch failed and which therefore never enter the status
dictionary — and the value get_upload_progress returns is the IEEE binary64
evaluation of int((completed / total) * 100) (pyTruncPct) applied to the
changed tracked weight and that total, not the exact integer part of the
size-weighted ratio. -/
theorem c1_amended_float_weighted_ratio (env envP : OverlayEnv)
    (srcDir dstFolder : FilePath') (s : OverlayState) (fileList : List FilePath')
    (hnc : (fileList.filter
        (fun f => env.isFile (get_new_path srcDir dstFolder f))).isEmpty = true
      ∨ env.confirm = true) :
    (upload_files env srcDir dstFolder s fileList).1.totalSize = sumSizes env fileList
    ∧ (0 < sumSizes env fileList →
        (get_upload_progress envP (upload_files env srcDir dstFolder s fileList).1).2
          = ((pyTruncPct
                (changedSize
                  ((upload_files env srcDir dstFolder s fileList).1.fileStatuses.map
                    (pollEntry envP.getOverlay)))
                (sumSizes env fileList) : Nat) : Int)) := by
  have htot := upload_files_totalSize env srcDir dstFolder s fileList hnc
  refine ⟨htot, ?_⟩
  intro hpos
  simp only [get_upload_progress]
  rw [htot, if_pos hpos]

/-- Witness for C1 amended: the 29-byte / 71-byte batch of the
counterexample satisfies the amended description, with value 28. -/
theorem c1_amended_float_weighted_ratio_witness :
    (upload_files
        { isFile := fun _ => false, confirm := false,
          getSize := fun p => if p = ["s", "a"] then 29 else 71,
          getOverlay := fun _ => some 0 }
        ["s"] ["d"] OverlayState.init [["s", "a"], ["s", "b"]]).1.totalSize
      = sumSizes
        { isFile := fun _ => false, confirm := false,
          getSize := fun p => if p = ["s", "a"] then 29 else 71,
          getOverlay := fun _ => some 0 }
        [["s", "a"], ["s", "b"]]
    ∧ (get_upload_progress
        { isFile := fun _ => false, confirm := false, getSize := fun _ => 0,
          getOverlay := fun p => if p = ["d", "a"] then some 1 else some 0 }
        (upload_files
          { isFile := fun _ => false, confirm := false,
            getSize := fun p => if p = ["s", "a"] then 29 else 71,
            getOverlay := fun _ => some 0 }
          ["s"] ["d"] OverlayState.init [["s", "a"], ["s", "b"]]).1).2
      = ((pyTruncPct
            (changedSize
              ((upload_files
                { isFile := fun _ => false, confirm := false,
                  getSize := fun p => if p = ["s", "a"] then 29 else 71,
                  getOverlay := fun _ => some 0 }
                ["s"] ["d"] OverlayState.init [["s", "a"], ["s", "b"]]).1.fileStatuses.map
                (pollEntry (fun p => if p = ["d", "a"] then some 1 else some 0))))
            (sumSizes
              { isFile := fun _ => false, confirm := false,
                getSize := fun p => if p = ["s", "a"] then 29 else 71,
                getOverlay := fun _ => some 0 }
              [["s", "a"], ["s", "b"]]) : Nat) : Int) := by
  have h := c1_amended_float_weighted_ratio
    { isFile := fun _ => false, confirm := false,
      getSize := fun p => if p = ["s", "a"] then 29 else 71,
      getOverlay := fun _ => some 0 }
    { isFile := fun _ => false, confirm := false, getSize := fun _ => 0,
      getOverlay := fun p => if p = ["d", "a"] then some 1 else some 0 }
    ["s"] ["d"] OverlayState.init [["s", "a"], ["s", "b"]] (Or.inl (by decide))
  exact ⟨h.1, h.2 (by decide)⟩

theorem mem_insertSorted (a x : Str) (l : List Str) :
    x ∈ insertSorted a l ↔ x = a ∨ x ∈ l := by
  induction l with
  | nil => simp [insertSorted]
  | cons b bs ih =>
    by_cases h : lexLe a b = true
    · simp [insertSorted, h]
    · simp only [insertSorted, if_neg h, List.mem_cons, ih]
      tauto

theorem mem_sortedStr (x : Str) (l : List Str) : x ∈ sortedStr l ↔ x ∈ l := by
  induction l with
  | nil => simp [sortedStr]
  | cons b bs ih =>
    simp only [sortedStr, List.foldr_cons] at ih ⊢
    rw [mem_insertSorted, ih, List.mem_cons]

theorem mem_list_directory_contents_not_excluded (patterns : List Str)
    (directoryPath : Str) (globResults : List Str) (isDir : Str → Bool)
    (item : Str) (hmem : item ∈ list_directory_contents patterns directoryPath
      globResults isDir) :
    is_excluded patterns item = false := by
  have hfiltered : item ∈ (globResults.map
      (fun file => removeLeading (directoryPath ++ [Char.ofNat 92]) file)).filter
      (fun item => !is_excluded patterns item) := by
    simp only [list_directory_contents] at hmem
    rcases List.mem_append.1 hmem with h | h
    · exact (List.mem_filter.1 ((mem_sortedStr _ _).1 h)).1
    · exact (List.mem_filter.1 ((mem_sortedStr _ _).1 h)).1
  have := (List.mem_filter.1 hfiltered).2
  simpa using this

/-- C9: is_excluded holds for a path exactly when some backslash-separated
component of the path equals, character for character, one stripped line of
the exclusion-list file (never a substring or wildcard match); consequently
every item offered by list_directory_contents, and hence every file the
selection dialog hands to the uploader, has no component equal to an
exclusion entry. -/
theorem c9_exclusion_exact_component_match :
    (∀ (lines : List Str) (path : Str),
        is_excluded (load_exclude_patterns lines) path = true
          ↔ ∃ c ∈ splitOnSep (Char.ofNat 92) path, ∃ line ∈ lines, c = stripStr line)
    ∧ (∀ (patterns : List Str) (directoryPath : Str) (globResults : List Str)
          (isDir : Str → Bool) (item : Str),
        item ∈ list_directory_contents patterns directoryPath globResults isDir →
        is_excluded patterns item = false)
    ∧ (∀ (patterns : List Str) (directoryPath : Str) (globResults : List Str)
          (isDir : Str → Bool) (checked isFileAt : Str → Bool) (f : Str),
        f ∈ get_selected_files directoryPath
              (list_directory_contents patterns directoryPath globResults isDir)
              checked isFileAt →
        ∃ item, item ∈ list_directory_contents patterns directoryPath globResults isDir
          ∧ is_excluded patterns item = false
          ∧ f = directoryPath ++ Char.ofNat 92 :: item) := by
  refine ⟨?_, mem_list_directory_contents_not_excluded, ?_⟩
  · intro lines path
    simp only [is_excluded, load_exclude_patterns, List.any_eq_true, List.mem_map]
    constructor
    · rintro ⟨ex, ⟨line, hline, rfl⟩, hc⟩
      exact ⟨stripStr line, List.elem_iff.1 hc, line, hline, rfl⟩
    · rintro ⟨c, hc, line, hline, rfl⟩
      exact ⟨stripStr line, ⟨line, hline, rfl⟩, List.elem_iff.2 hc⟩
  · intro patterns directoryPath globResults isDir checked isFileAt f hf
    simp only [get_selected_files, List.mem_filter, List.mem_map] at hf
    obtain ⟨⟨item, hitem, rfl⟩, _⟩ := hf
    have hitem' := hitem.1
    exact ⟨item, hitem',
      mem_list_directory_contents_not_excluded patterns directoryPath globResults
        isDir item hitem', rfl⟩

/-- Witness for C9: with exclusion entry x, the listing of a directory
holding a and x offers exactly a, which is not excluded, and the selected
upload path is the directory joined with a. -/
theorem c9_exclusion_exact_component_match_witness :
    is_excluded [['x']] ['a'] = false
    ∧ (∃ item, item ∈ list_directory_contents [['x']] ['w']
          [['w', Char.ofNat 92, 'a'], ['w', Char.ofNat 92, 'x']] (fun _ => false)
        ∧ is_excluded [['x']] item = false
        ∧ ['w', Char.ofNat 92, 'a'] = ['w'] ++ Char.ofNat 92 :: item) := by
  constructor
  · exact c9_exclusion_exact_component_match.2.1 [['x']] ['w']
      [['w', Char.ofNat 92, 'a'], ['w', Char.ofNat 92, 'x']] (fun _ => false) ['a']
      (by decide)
  · exact c9_exclusion_exact_component_match.2.2 [['x']] ['w']
      [['w', Char.ofNat 92, 'a'], ['w', Char.ofNat 92, 'x']] (fun _ => false)
      (fun _ => true) (fun _ => true) ['w', Char.ofNat 92, 'a'] (by decide)
